import Mathlib

/-!
Verification of the fuelly-ocr extraction pipeline.

This file gives a shallow embedding of the OCR parsing code
(`parsePumpData`, `parseOdometerData` from `src/ocr.js`, current version, and
`detectAndParseData` from `src/app.js`) and proves/refutes the frozen claims
about it.

Modelling conventions:
- JavaScript strings are `List Char`; JavaScript numbers arising here are exact
  decimal fractions, modelled as `ℚ` (all parsed literals have at most three
  fractional digits, so no floating-point rounding distinguishes them).
- Each JavaScript regular expression used by the code is hand-compiled into an
  explicit backtracking matcher on `List Char`. Global scans (`matchAll`,
  `String.replace` with the `g` flag) are compiled into left-to-right,
  non-overlapping scanners, exactly as the JS regexp engine behaves.
- Fallible extraction is `Option`.  JavaScript truthiness of a number variable
  (`if (gallons)`) is modelled by `truthy : Option ℚ → Bool` (false for `null`
  and for `0`).
- Recursions that consume a variable number of characters per step take an
  explicit fuel argument, always called with fuel = length of the input, which
  is exactly sufficient because every step consumes at least one character.
-/

set_option maxRecDepth 8000

namespace FuellyOcr

/-- JS `\w` word characters `[A-Za-z0-9_]` (ASCII, as produced by the OCR). -/
def isWordChar (c : Char) : Bool := c.isAlphanum || c = '_'

/-- JS `\s` whitespace characters (the ASCII ones; OCR text is ASCII). -/
def isSpc (c : Char) : Bool :=
  c = ' ' || c = '\t' || c = '\n' || c = '\r' || c = '\x0b' || c = '\x0c'

/-- A JS word boundary `\b` placed right after a digit: the next character (if
any) is not a word character. -/
def bdryOk : List Char → Bool
  | [] => true
  | c :: _ => !isWordChar c

/-- `parseInt` / the integer part of `parseFloat` on a digit string
(leading zeros are accepted and ignored, as in JS). -/
def digitsToNat (s : List Char) : ℕ :=
  s.foldl (fun n c => 10 * n + (c.toNat - 48)) 0

/-- `parseFloat` on a string of digits containing one decimal point. -/
def parseDec (s : List Char) : ℚ :=
  let ip := s.takeWhile (fun c => c ≠ '.')
  let fp := (s.dropWhile (fun c => c ≠ '.')).drop 1
  (digitsToNat ip : ℚ) + (digitsToNat fp : ℚ) / (10 : ℚ) ^ fp.length

/-- `parseFloat(digits.slice(0, p) + '.' + digits.slice(p))`: the value of a
digit string with a decimal point inserted after position `p`. -/
def insertDec (ds : List Char) (p : ℕ) : ℚ :=
  (digitsToNat (ds.take p) : ℚ) + (digitsToNat (ds.drop p) : ℚ) / (10 : ℚ) ^ (ds.length - p)

/-- The character for a decimal digit `d < 10`. -/
def digitChar (d : ℕ) : Char := Char.ofNat (48 + d)

/-- Decimal digit characters of a natural number (fuel-based; fuel `n + 1`
always suffices since the recursion divides by 10). -/
def natCharsF : ℕ → ℕ → List Char
  | 0, _ => []
  | _ + 1, n =>
    if n < 10 then [digitChar n]
    else natCharsF n (n / 10) ++ [digitChar (n % 10)]

def natToChars (n : ℕ) : List Char := natCharsF (n + 1) n

/-- JS `Number.prototype.toString` for the values reachable in this code: all
extracted gallons/total values are exact multiples of 1/1000, and for such
doubles `toString` prints the decimal expansion with trailing fractional
zeros removed (and no point when the fraction is zero).  On other rationals
(unreachable here) the function returns the empty string. -/
def numToString (q : ℚ) : List Char :=
  let m := q * 1000
  if m.den = 1 ∧ 0 ≤ m.num then
    let n := m.num.toNat
    let ip := natToChars (n / 1000)
    let fr := n % 1000
    if fr = 0 then ip
    else if fr % 100 = 0 then ip ++ '.' :: [digitChar (fr / 100)]
    else if fr % 10 = 0 then ip ++ '.' :: [digitChar (fr / 100), digitChar ((fr / 10) % 10)]
    else ip ++ '.' :: [digitChar (fr / 100), digitChar ((fr / 10) % 10), digitChar (fr % 10)]
  else []

/-- Whether `pat` occurs at the head of `s`. -/
def leadsWith : List Char → List Char → Bool
  | [], _ => true
  | _ :: _, [] => false
  | a :: as, b :: bs => a == b && leadsWith as bs

/-- JS `s.includes(pat)`: `pat` occurs contiguously somewhere in `s`. -/
def includes (pat : List Char) : List Char → Bool
  | [] => pat.isEmpty
  | c :: cs => leadsWith pat (c :: cs) || includes pat cs

/-- JS truthiness of a nullable number (`null` and `0` are falsy). -/
def truthy : Option ℚ → Bool
  | none => false
  | some v => v != 0

/-- Ascending list of `n` indices starting at `k`. -/
def upto (k : ℕ) : ℕ → List ℕ
  | 0 => []
  | n + 1 => k :: upto (k + 1) n

/-! ## Data model (`OcrResult`, `FieldValue`, `PumpData`, `OdometerData`) -/

structure OcrLine where
  text : List Char
  confidence : ℚ
deriving DecidableEq

structure OcrResult where
  text : List Char
  lines : List OcrLine
deriving DecidableEq

structure FieldValue where
  value : Option ℚ
  confidence : ℚ
deriving DecidableEq

structure PumpData where
  gallons : FieldValue
  pricePerGallon : FieldValue
  total : FieldValue
deriving DecidableEq

structure OdometerData where
  miles : FieldValue
deriving DecidableEq

/-! ## Artifact cleanup (`text.replace(...)` chain of `parsePumpData`)

Each matcher takes the suffix of the text starting at the current scan
position and returns `some (replacement, n)` when the pattern matches there
consuming `n + 1` characters, else `none`.  `gsub` then performs the global
left-to-right non-overlapping replacement, exactly like `String.replace` with
a `g`-flagged regexp. -/

/-- One global-replace pass. Fuel = length of the input is exactly enough
because every step consumes at least one character. -/
def gsubF (m : List Char → Option (List Char × ℕ)) : ℕ → List Char → List Char
  | 0, s => s
  | _ + 1, [] => []
  | f + 1, c :: cs =>
    match m (c :: cs) with
    | some (r, n) => r ++ gsubF m f (cs.drop n)
    | none => c :: gsubF m f cs

def gsub (m : List Char → Option (List Char × ℕ)) (s : List Char) : List Char :=
  gsubF m s.length s

/-- `/GALLONS\s*\n\s*(\d)\.(\d)\s*\|\s*(\d)/g` replaced by
`'GALLONS\n' + $1 + '.' + $2 + '1' + $3`.  (`\s*\n\s*` matches a whitespace
run containing a newline; since the following atom is a digit, backtracking is
equivalent to taking the maximal whitespace run and checking it contains a
newline.) -/
def mR0 (s : List Char) : Option (List Char × ℕ) :=
  if s.take 7 = "GALLONS".data then
    let r0 := s.drop 7
    let w1 := r0.takeWhile isSpc
    if w1.contains '\n' then
      match r0.drop w1.length with
      | d1 :: '.' :: d2 :: r2 =>
        if d1.isDigit && d2.isDigit then
          let w2 := r2.takeWhile isSpc
          match r2.drop w2.length with
          | '|' :: r4 =>
            let w3 := r4.takeWhile isSpc
            match r4.drop w3.length with
            | d3 :: _ =>
              if d3.isDigit then
                some ("GALLONS\n".data ++ [d1, '.', d2, '1', d3],
                      7 + w1.length + 3 + w2.length + 1 + w3.length)
              else none
            | [] => none
          | _ => none
        else none
      | _ => none
    else none
  else none

/-- `/(\d+)\.\s+(\d{2})\b/g` replaced by `'$1.$2'` (drops the stray spaces in
`"10. 19"`). -/
def mR1 (s : List Char) : Option (List Char × ℕ) :=
  let ds := s.takeWhile Char.isDigit
  if ds.isEmpty then none else
  match s.drop ds.length with
  | '.' :: r2 =>
    let ws := r2.takeWhile isSpc
    if ws.isEmpty then none else
    match r2.drop ws.length with
    | a :: b :: r4 =>
      if a.isDigit && b.isDigit && bdryOk r4 then
        some (ds ++ '.' :: [a, b], ds.length + ws.length + 2)
      else none
    | _ => none
  | _ => none

/-- `/(\d)\.(\d{2})\s*\|\s*(\d)/g` replaced by `'$1.$2$3'`
(`"9.81 | 1"` to `"9.811"`). -/
def mR2 (s : List Char) : Option (List Char × ℕ) :=
  match s with
  | d1 :: '.' :: a :: b :: r =>
    if d1.isDigit && a.isDigit && b.isDigit then
      let w1 := r.takeWhile isSpc
      match r.drop w1.length with
      | '|' :: r2 =>
        let w2 := r2.takeWhile isSpc
        match r2.drop w2.length with
        | d4 :: _ =>
          if d4.isDigit then some ([d1, '.', a, b, d4], 4 + w1.length + w2.length + 1)
          else none
        | [] => none
      | _ => none
    else none
  | _ => none

/-- `/(\d)\.(\d{2})\|(\d)/g` replaced by `'$1.$2$3'` (`"9.81|1"` to `"9.811"`). -/
def mR3 (s : List Char) : Option (List Char × ℕ) :=
  match s with
  | d1 :: '.' :: a :: b :: '|' :: d4 :: _ =>
    if d1.isDigit && a.isDigit && b.isDigit && d4.isDigit then
      some ([d1, '.', a, b, d4], 5)
    else none
  | _ => none

/-- `/(\d)\.(\d{2})\s+1(?!\d)/g` replaced by `'$1.$21'`, which JS reads as
group 2 followed by a literal `1` (`"9.81 1"` to `"9.811"`). -/
def mR4 (s : List Char) : Option (List Char × ℕ) :=
  match s with
  | d1 :: '.' :: a :: b :: r =>
    if d1.isDigit && a.isDigit && b.isDigit then
      let ws := r.takeWhile isSpc
      if ws.isEmpty then none else
      match r.drop ws.length with
      | '1' :: r2 =>
        match r2 with
        | c :: _ => if c.isDigit then none else some ([d1, '.', a, b, '1'], 4 + ws.length)
        | [] => some ([d1, '.', a, b, '1'], 4 + ws.length)
      | _ => none
    else none
  | _ => none

/-- `/(\d)\.(\d)\s+1(?!\d)/g` replaced by `'$1.$2' + '1'`
(`"35.5 1"` to `"35.51"`). -/
def mR5 (s : List Char) : Option (List Char × ℕ) :=
  match s with
  | d1 :: '.' :: a :: r =>
    if d1.isDigit && a.isDigit then
      let ws := r.takeWhile isSpc
      if ws.isEmpty then none else
      match r.drop ws.length with
      | '1' :: r2 =>
        match r2 with
        | c :: _ => if c.isDigit then none else some ([d1, '.', a, '1'], 3 + ws.length)
        | [] => some ([d1, '.', a, '1'], 3 + ws.length)
      | _ => none
    else none
  | _ => none

/-- `/\|/g` replaced by `'1'`. -/
def mR6 (s : List Char) : Option (List Char × ℕ) :=
  match s with
  | '|' :: _ => some (['1'], 0)
  | _ => none

/-- The full cleanup chain of `parsePumpData`, in source order. -/
def cleanPump (t : List Char) : List Char :=
  gsub mR6 (gsub mR5 (gsub mR4 (gsub mR3 (gsub mR2 (gsub mR1 (gsub mR0 t))))))

/-! ## Digit-run token scanners

`tryRuns hi lo exQ` is one attempt of a pattern `\b(\d{lo,hi})\b` (greedy, so
length `hi` is tried before `lo`) with an extra post-condition `exQ` on the
rest (used for the `(?!\.\d)` lookahead); `pw` tells whether the previous
character is a word character (in which case the leading `\b` fails, since the
first pattern character is a digit). -/

def tryLen (L : ℕ) (exQ : List Char → Bool) (s : List Char) : Option (List Char) :=
  if (s.take L).length = L && (s.take L).all Char.isDigit
      && bdryOk (s.drop L) && exQ (s.drop L) then
    some (s.take L)
  else none

def tryRuns (hi lo : ℕ) (exQ : List Char → Bool) (pw : Bool) (s : List Char) :
    Option (List Char × ℕ) :=
  if pw then none else
  match tryLen hi exQ s with
  | some g => some (g, hi - 1)
  | none =>
    match tryLen lo exQ s with
    | some g => some (g, lo - 1)
    | none => none

/-- The JS regexp engine's `matchAll` scan for `tryRuns`-shaped patterns:
left to right, non-overlapping, resuming right after each match.  Fuel =
length of the input is exactly enough. -/
def runScanF (hi lo : ℕ) (exQ : List Char → Bool) : ℕ → Bool → List Char → List (List Char)
  | 0, _, _ => []
  | _ + 1, _, [] => []
  | f + 1, pw, c :: cs =>
    match tryRuns hi lo exQ pw (c :: cs) with
    | some (g, n) => g :: runScanF hi lo exQ f true (cs.drop n)
    | none => runScanF hi lo exQ f (isWordChar c) cs

def runScan (hi lo : ℕ) (exQ : List Char → Bool) (s : List Char) : List (List Char) :=
  runScanF hi lo exQ s.length false s

/-- Whether the character before position `i` is a word character
(`false` at the start of the text). -/
def wordPrev (t : List Char) : ℕ → Bool
  | 0 => false
  | j + 1 => isWordChar (t.getD j ' ')

/-- Position-based ("declarative") reading of the same token pattern: the
standalone digit run of length `lo`–`hi` starting at position `i` of `t`,
if there is one. -/
def runTokAt (hi lo : ℕ) (exQ : List Char → Bool) (t : List Char) (i : ℕ) :
    Option (List Char) :=
  (tryRuns hi lo exQ (wordPrev t i) (t.drop i)).map (·.1)

/-- All standalone digit-run tokens of `t`, by position. -/
def runToks (hi lo : ℕ) (exQ : List Char → Bool) (t : List Char) : List (List Char) :=
  (upto 0 (t.length + 1)).filterMap (runTokAt hi lo exQ t)

/-- The `(?!\.\d)` negative lookahead of the odometer pattern. -/
def noDotDigit : List Char → Bool
  | '.' :: d :: _ => !d.isDigit
  | _ => true

def alwaysTrue : List Char → Bool := fun _ => true

/-! ## First-match scanner (`text.match(...)` without the `g` flag) -/

/-- Leftmost match of a single attempt function `f` (which receives the
word-ness of the previous character and the suffix at the attempt position). -/
def scanFirst (f : Bool → List Char → Option α) : Bool → List Char → Option α
  | pw, [] => f pw []
  | pw, c :: cs =>
    match f pw (c :: cs) with
    | some g => some g
    | none => scanFirst f (isWordChar c) cs

/-- One attempt of the gallons pattern `/\b(\d{1,2}\.\d{3})\b/`: greedy
(two integer digits before one), a decimal point, exactly three fractional
digits, word boundaries on both sides. -/
def tryG (pw : Bool) (s : List Char) : Option (List Char) :=
  if pw then none else
  match s with
  | a :: b :: '.' :: x :: y :: z :: r =>
    if a.isDigit && b.isDigit && x.isDigit && y.isDigit && z.isDigit && bdryOk r then
      some [a, b, '.', x, y, z]
    else tryG1 s
  | _ => tryG1 s
where
  /-- The one-integer-digit alternative of the same attempt. -/
  tryG1 : List Char → Option (List Char)
  | a :: '.' :: x :: y :: z :: r =>
    if a.isDigit && x.isDigit && y.isDigit && z.isDigit && bdryOk r then
      some [a, '.', x, y, z]
    else none
  | _ => none

/-! ## Total pattern scanner

`/\$?\s*(\d{1,3}\.\d{2})\b/g`: the `\$?\s*` prefix is optional and captures
nothing, so the captured-group sequence equals the left-to-right
non-overlapping scan of `(\d{1,3}\.\d{2})\b` alone, greedy in the integer
part and with no left boundary (the integer digits may be the tail of a
longer digit run). -/

/-- One attempt of `(\d{1,3}\.\d{2})\b` at the head of `s`; returns the group
and the number of consumed characters minus one. -/
def tryTot (s : List Char) : Option (List Char × ℕ) :=
  match s with
  | a :: b :: c :: '.' :: x :: y :: r =>
    if a.isDigit && b.isDigit && c.isDigit && x.isDigit && y.isDigit && bdryOk r then
      some ([a, b, c, '.', x, y], 5)
    else tryTot2 s
  | _ => tryTot2 s
where
  tryTot2 : List Char → Option (List Char × ℕ)
  | a :: b :: '.' :: x :: y :: r =>
    if a.isDigit && b.isDigit && x.isDigit && y.isDigit && bdryOk r then
      some ([a, b, '.', x, y], 4)
    else tryTot1 (a :: b :: '.' :: x :: y :: r)
  | s => tryTot1 s
  tryTot1 : List Char → Option (List Char × ℕ)
  | a :: '.' :: x :: y :: r =>
    if a.isDigit && x.isDigit && y.isDigit && bdryOk r then
      some ([a, '.', x, y], 3)
    else none
  | _ => none

/-- All captured groups of the total pattern, in scan order (fuel-based as
above). -/
def totScanF : ℕ → List Char → List (List Char)
  | 0, _ => []
  | _ + 1, [] => []
  | f + 1, c :: cs =>
    match tryTot (c :: cs) with
    | some (g, n) => g :: totScanF f (cs.drop n)
    | none => totScanF f cs

def totScan (s : List Char) : List (List Char) := totScanF s.length s

/-! ## `parsePumpData` -/

/-- The gallons numeric-reconstruction heuristic: for each 4–5-digit candidate
in order, try a decimal point after position 1 then position 2; accept the
first insertion whose value is in [1, 25] and whose digit count is the
insertion position plus 3.  Returns the value and the consumed digit token. -/
def heurGallons (cands : List (List Char)) : Option (ℚ × List Char) :=
  cands.findSome? fun ds =>
    [1, 2].findSome? fun p =>
      if 1 ≤ insertDec ds p ∧ insertDec ds p ≤ 25 ∧ ds.length = p + 3 then
        some (insertDec ds p, ds)
      else none

/-- The total numeric-reconstruction heuristic: for each 4-digit candidate in
order, skipping the token consumed by the gallons heuristic, try a decimal
point after position 2 then position 3; accept the first value in [10, 500]. -/
def heurTotal (gds : Option (List Char)) (cands : List (List Char)) :
    Option (ℚ × List Char) :=
  cands.findSome? fun ds =>
    if gds = some ds then none
    else
      [2, 3].findSome? fun p =>
        if 10 ≤ insertDec ds p ∧ insertDec ds p ≤ 500 then some (insertDec ds p, ds)
        else none

/-- The confidence-lookup loop: first line satisfying `p` gives its
confidence, with 70 substituted when that confidence is falsy; 0 when no line
satisfies `p`. -/
def lineHit (lines : List OcrLine) (p : OcrLine → Bool) : ℚ :=
  match lines.find? p with
  | some l => if l.confidence = 0 then 70 else l.confidence
  | none => 0

/-!
`parsePumpData` is assembled from one definition per local variable of the
JS function, each a function of the cleaned text `t` (and the OCR lines for
the confidences).  The JS control flow is sequential straight-line code, so
this decomposition is exact.
-/

/-- `gallonsMatch` after `text.match(gallonsPattern)`:
first match of `/\b(\d{1,2}\.\d{3})\b/`. -/
def gDirectOf (t : List Char) : Option (List Char) := scanFirst tryG false t

/-- Result of the gallons heuristic block (entered only when there is no
direct match): value and consumed digit token. -/
def gHeurOf (t : List Char) : Option (ℚ × List Char) :=
  match gDirectOf t with
  | some _ => none
  | none => heurGallons (runScan 5 4 alwaysTrue t)

/-- The `gallons` variable after both gallons blocks. -/
def gallonsValOf (t : List Char) : Option ℚ :=
  match gDirectOf t, gHeurOf t with
  | some gs, _ => some (parseDec gs)
  | none, some (v, _) => some v
  | none, none => none

/-- `gallonsMatch[1]` as used by the confidence scan. -/
def gMatchStrOf (t : List Char) : List Char :=
  match gDirectOf t, gHeurOf t with
  | some gs, _ => gs
  | none, some (_, ds) => ds
  | none, none => []

/-- The `gallonsDigits` variable. -/
def gDigitsOf (t : List Char) : Option (List Char) := (gHeurOf t).map (·.2)

/-- The line predicate of the gallons confidence loop: a non-empty line
containing `gallonsMatch[1]` or `gallons.toString()`. -/
def gallonsHitP (t : List Char) (l : OcrLine) : Bool :=
  !l.text.isEmpty &&
    (includes (gMatchStrOf t) l.text
      || includes (numToString ((gallonsValOf t).getD 0)) l.text)

/-- The `gallonsConfidence` variable: set only under `if (gallons)`. -/
def gallonsConfOf (t : List Char) (lines : List OcrLine) : ℚ :=
  if truthy (gallonsValOf t) then lineHit lines (gallonsHitP t) else 0

/-- The `totalMatches` variable (before the heuristic possibly rebinds it). -/
def tMatchesOf (t : List Char) : List (List Char) := totScan t

/-- Result of the total heuristic block (entered only when `totalMatches` is
empty): value and source digit token. -/
def tHeurOf (t : List Char) : Option (ℚ × List Char) :=
  if (tMatchesOf t).isEmpty then heurTotal (gDigitsOf t) (runScan 4 4 alwaysTrue t) else none

/-- First direct total match whose value is in [10, 500], with its value
(the `if (!total && totalMatches.length > 0)` loop). -/
def tDirectOf (t : List Char) : Option (List Char × ℚ) :=
  match tHeurOf t with
  | some _ => none
  | none =>
    (tMatchesOf t).findSome? fun m =>
      if 10 ≤ parseDec m ∧ parseDec m ≤ 500 then some (m, parseDec m) else none

/-- The `total` variable after both total blocks. -/
def totalValOf (t : List Char) : Option ℚ :=
  match tHeurOf t, tDirectOf t with
  | some (v, _), _ => some v
  | none, some (_, v) => some v
  | none, none => none

/-- The line predicate of the direct-total confidence loop: a non-empty line
containing `match[1]`. -/
def totMatchHitP (m : List Char) (l : OcrLine) : Bool := !l.text.isEmpty && includes m l.text

/-- The line predicate of the `if (total)` rescan: a non-empty line containing
`total.toString()`. -/
def totStrHitP (tv : ℚ) (l : OcrLine) : Bool := !l.text.isEmpty && includes (numToString tv) l.text

/-- `totalConfidence` as set inside the direct-match loop. -/
def tConf1Of (t : List Char) (lines : List OcrLine) : ℚ :=
  match tDirectOf t with
  | some (m, _) => lineHit lines (totMatchHitP m)
  | none => 0

/-- `totalConfidence` after the `if (total)` rescan for the value's string
form (which keeps the earlier confidence when no line contains it). -/
def totalConfOf (t : List Char) (lines : List OcrLine) : ℚ :=
  match totalValOf t with
  | some tv =>
    (match lines.find? (totStrHitP tv) with
     | some l => if l.confidence = 0 then 70 else l.confidence
     | none => tConf1Of t lines)
  | none => 0

/-- The derived `pricePerGallon` (`if (total && gallons && !pricePerGallon)`;
`pricePerGallon` is never set before this point in the current code). -/
def priceValOf (t : List Char) : Option ℚ :=
  if truthy (totalValOf t) && truthy (gallonsValOf t) then
    some ((totalValOf t).getD 0 / (gallonsValOf t).getD 0)
  else none

def priceConfOf (t : List Char) (lines : List OcrLine) : ℚ :=
  if truthy (totalValOf t) && truthy (gallonsValOf t) then
    min (totalConfOf t lines) (gallonsConfOf t lines)
  else 0

/-- Shallow embedding of `parsePumpData` (src/ocr.js, current version). -/
def parsePumpData (ocr : OcrResult) : PumpData :=
  let t := cleanPump ocr.text
  { gallons := ⟨gallonsValOf t, gallonsConfOf t ocr.lines⟩
    pricePerGallon := ⟨priceValOf t, priceConfOf t ocr.lines⟩
    total := ⟨totalValOf t, totalConfOf t ocr.lines⟩ }

/-! ## `parseOdometerData` -/

/-- The `reduce` step of `parseOdometerData`: `parseInt(a[1]) > parseInt(b[1]) ? a : b`. -/
def pickMax (a b : List Char) : List Char := if digitsToNat a > digitsToNat b then a else b

/-- The match chosen by the `reduce` over all odometer matches (the
numerically largest; the later of two equal-valued matches). -/
def odoChosenOf (t : List Char) : Option (List Char) :=
  match runScan 6 5 noDotDigit t with
  | [] => none
  | m :: rest => some (rest.foldl pickMax m)

/-- The line predicate of the odometer confidence loop. -/
def milesHitP (chosen : List Char) (l : OcrLine) : Bool := !l.text.isEmpty && includes chosen l.text

/-- Shallow embedding of `parseOdometerData` (src/ocr.js, current version):
matches of `/\b(\d{5,6})\b(?!\.\d)/g` on the raw text; the reduce keeps the
later of two equal-valued matches, exactly as `a > b ? a : b` does. -/
def parseOdometerData (ocr : OcrResult) : OdometerData :=
  match odoChosenOf ocr.text with
  | none => { miles := ⟨none, 0⟩ }
  | some chosen =>
    { miles := ⟨some (digitsToNat chosen : ℚ), lineHit ocr.lines (milesHitP chosen)⟩ }

/-! ## `detectAndParseData` (src/app.js) -/

/-- JS `toLowerCase` on ASCII text. -/
def lowerTxt (t : List Char) : List Char :=
  t.map fun c => if 'A' ≤ c ∧ c ≤ 'Z' then Char.ofNat (c.toNat + 32) else c

/-- `/\b\d{5,6}\b/.test(text)`: the odometer *indicator* (no lookahead). -/
def hasD56 (t : List Char) : Bool :=
  (scanFirst (fun pw s => (tryRuns 6 5 alwaysTrue pw s).map (·.1)) false t).isSome

def emptyPump : PumpData := ⟨⟨none, 0⟩, ⟨none, 0⟩, ⟨none, 0⟩⟩

def emptyOdo : OdometerData := ⟨⟨none, 0⟩⟩

/-- One iteration of the lexical pass of `detectAndParseData`. -/
def pass1Step (acc : PumpData × OdometerData) (r : OcrResult) : PumpData × OdometerData :=
  let text := lowerTxt r.text
  let hasGallons := includes "gallon".data text || includes "gal".data text
  let hasSale :=
    includes "sale".data text || includes "$".data text || includes "price".data text
  let hasOdometer :=
    includes "odometer".data text || includes "odo".data text || hasD56 text
  let p :=
    if hasGallons || hasSale then
      (let parsed := parsePumpData r
       if truthy parsed.gallons.value then parsed else acc.1)
    else acc.1
  let o :=
    if hasOdometer then
      (let parsed := parseOdometerData r
       if truthy parsed.miles.value then parsed else acc.2)
    else acc.2
  (p, o)

/-- The lexical pass over all OCR results. -/
def pass1 (rs : List OcrResult) : PumpData × OdometerData :=
  rs.foldl pass1Step (emptyPump, emptyOdo)

/-- Shallow embedding of `detectAndParseData` (src/app.js). -/
def detectAndParseData (rs : List OcrResult) : PumpData × OdometerData :=
  let acc := pass1 rs
  if !truthy acc.1.gallons.value && !truthy acc.2.miles.value then
    let p :=
      match (rs.map parsePumpData).find? (fun d => truthy d.gallons.value) with
      | some d => d
      | none => acc.1
    let o :=
      match (rs.map parseOdometerData).find? (fun d => truthy d.miles.value) with
      | some d => d
      | none => acc.2
    (p, o)
  else acc

/-! ## Supporting lemmas: positional characterization of the scanners -/

theorem mem_upto {x k n : ℕ} : x ∈ upto k n ↔ k ≤ x ∧ x < k + n := by
  induction n generalizing k with
  | zero => simp [upto]
  | succ n ih => simp [upto, ih]; omega

theorem upto_shift (k m n : ℕ) : upto (k + m) n = (upto k n).map (· + m) := by
  induction n generalizing k with
  | zero => simp [upto]
  | succ n ih =>
    have h1 : k + m + 1 = (k + 1) + m := by omega
    simp [upto, h1, ih (k + 1)]

theorem upto_append (k a b : ℕ) : upto k (a + b) = upto k a ++ upto (k + a) b := by
  induction a generalizing k with
  | zero => simp [upto]
  | succ a ih =>
    have h1 : a + 1 + b = (a + b) + 1 := by omega
    have h2 : k + 1 + a = k + (a + 1) := by omega
    simp [h1, upto, ih (k + 1), h2]

/-- Word-ness of the character before position `i`, where `pw` is the
word-ness of the character before position 0. -/
def pwIn (pw : Bool) (t : List Char) : ℕ → Bool
  | 0 => pw
  | j + 1 => isWordChar (t.getD j ' ')

theorem wordPrev_eq_pwIn (t : List Char) (i : ℕ) : wordPrev t i = pwIn false t i := by
  cases i <;> rfl

theorem scanFirst_eq_findSome (f : Bool → List Char → Option α) (t : List Char) :
    ∀ pw, scanFirst f pw t
      = (upto 0 (t.length + 1)).findSome? fun i => f (pwIn pw t i) (t.drop i) := by
  induction t with
  | nil =>
    intro pw
    cases h : f pw [] <;> simp [scanFirst, upto, List.findSome?_cons, pwIn, h]
  | cons c cs ih =>
    intro pw
    have hfun : (fun i => f (pwIn pw (c :: cs) (i + 1)) ((c :: cs).drop (i + 1)))
        = fun i => f (pwIn (isWordChar c) cs i) (cs.drop i) := by
      funext i
      cases i with
      | zero => simp [pwIn, List.getD]
      | succ j => simp [pwIn, List.getD]
    have hshift := upto_shift 0 1 (cs.length + 1)
    simp only [Nat.zero_add] at hshift
    cases h : f pw (c :: cs) with
    | some g =>
      simp [scanFirst, h, upto, List.findSome?_cons, pwIn]
    | none =>
      have hL : scanFirst f pw (c :: cs) = scanFirst f (isWordChar c) cs := by
        simp [scanFirst, h]
      have hhead : f (pwIn pw (c :: cs) 0) (c :: cs) = none := h
      calc scanFirst f pw (c :: cs)
          = scanFirst f (isWordChar c) cs := hL
        _ = (upto 0 (cs.length + 1)).findSome?
              (fun i => f (pwIn (isWordChar c) cs i) (cs.drop i)) := ih _
        _ = (upto 0 (cs.length + 1)).findSome?
              (fun i => f (pwIn pw (c :: cs) (i + 1)) ((c :: cs).drop (i + 1))) := by
              rw [hfun]
        _ = (upto 1 (cs.length + 1)).findSome?
              (fun i => f (pwIn pw (c :: cs) i) ((c :: cs).drop i)) := by
              rw [hshift, List.findSome?_map]; rfl
        _ = (upto 0 ((c :: cs).length + 1)).findSome?
              (fun i => f (pwIn pw (c :: cs) i) ((c :: cs).drop i)) := by
              rw [show (c :: cs).length + 1 = 1 + (cs.length + 1) by simp; omega]
              rw [show upto 0 (1 + (cs.length + 1))
                    = upto 0 1 ++ upto (0 + 1) (cs.length + 1) from upto_append 0 1 _]
              simp [upto, List.findSome?_cons, hhead]

theorem tryRuns_pw_true (hi lo : ℕ) (exQ : List Char → Bool) (s : List Char) :
    tryRuns hi lo exQ true s = none := rfl

theorem tryLen_nil (L : ℕ) (exQ : List Char → Bool) (hL : 1 ≤ L) :
    tryLen L exQ ([] : List Char) = none := by
  have h1 : ¬ ((List.take L ([] : List Char)).length = L) := by simp; omega
  simp only [tryLen]
  rw [if_neg]
  simp only [Bool.and_eq_true, decide_eq_true_eq]
  intro hc
  exact h1 hc.1.1.1

theorem tryRuns_nil (hi lo : ℕ) (exQ : List Char → Bool) (pw : Bool)
    (hlo : 1 ≤ lo) (hhi : 1 ≤ hi) : tryRuns hi lo exQ pw [] = none := by
  cases pw with
  | true => rfl
  | false => simp [tryRuns, tryLen_nil hi exQ hhi, tryLen_nil lo exQ hlo]

theorem tryLen_eq_some {L : ℕ} {exQ : List Char → Bool} {s g : List Char}
    (h : tryLen L exQ s = some g) :
    g = s.take L ∧ g.length = L ∧ g.all Char.isDigit = true := by
  simp only [tryLen] at h
  split at h
  case isTrue hc =>
    simp only [Option.some.injEq] at h
    subst h
    simp only [Bool.and_eq_true, decide_eq_true_eq] at hc
    exact ⟨rfl, hc.1.1.1, hc.1.1.2⟩
  case isFalse => exact absurd h (by simp)

theorem tryRuns_eq_some {hi lo : ℕ} {exQ : List Char → Bool} {pw : Bool}
    {s g : List Char} {n : ℕ} (hlo : 1 ≤ lo) (hhi : lo ≤ hi)
    (h : tryRuns hi lo exQ pw s = some (g, n)) :
    pw = false ∧ g = s.take (n + 1) ∧ g.length = n + 1 ∧ g.all Char.isDigit = true := by
  cases pw with
  | true => simp [tryRuns] at h
  | false =>
    refine ⟨rfl, ?_⟩
    simp only [tryRuns, Bool.false_eq_true, if_false] at h
    cases h1 : tryLen hi exQ s with
    | some g1 =>
      rw [h1] at h
      obtain ⟨hg, hn⟩ : g1 = g ∧ hi - 1 = n := by simpa using h
      obtain ⟨h2, h3, h4⟩ := tryLen_eq_some h1
      have hhi1 : 1 ≤ hi := le_trans hlo hhi
      have hn1 : n + 1 = hi := by omega
      subst hg
      rw [hn1]
      exact ⟨h2, h3, h4⟩
    | none =>
      rw [h1] at h
      cases h2 : tryLen lo exQ s with
      | some g2 =>
        rw [h2] at h
        obtain ⟨hg, hn⟩ : g2 = g ∧ lo - 1 = n := by simpa using h
        obtain ⟨h3, h4, h5⟩ := tryLen_eq_some h2
        have hn1 : n + 1 = lo := by omega
        subst hg
        rw [hn1]
        exact ⟨h3, h4, h5⟩
      | none => rw [h2] at h; exact absurd h (by simp)

theorem getD_take {s : List Char} {n j : ℕ} (h : j < n) (d : Char) :
    (s.take n).getD j d = s.getD j d := by
  simp [List.getD, List.getElem?_take, h]

theorem getD_drop (s : List Char) (n j : ℕ) (d : Char) :
    (s.drop n).getD j d = s.getD (n + j) d := by
  simp [List.getD, List.getElem?_drop]

theorem isWordChar_of_digit {c : Char} (h : c.isDigit = true) : isWordChar c = true := by
  simp [isWordChar, Char.isAlphanum, h]

theorem all_digit_getD {g : List Char} (hall : g.all Char.isDigit = true) {j : ℕ}
    (hj : j < g.length) (d : Char) : (g.getD j d).isDigit = true := by
  rw [List.getD_eq_getElem g d hj]
  exact List.all_eq_true.mp hall _ (List.getElem_mem hj)

theorem runScanF_eq (hi lo : ℕ) (exQ : List Char → Bool) (hlo : 1 ≤ lo) (hhi : lo ≤ hi) :
    ∀ (fuel : ℕ) (s : List Char) (pw : Bool), s.length ≤ fuel →
      runScanF hi lo exQ fuel pw s
        = (upto 0 (s.length + 1)).filterMap
            fun i => (tryRuns hi lo exQ (pwIn pw s i) (s.drop i)).map (·.1) := by
  intro fuel
  induction fuel with
  | zero =>
    intro s pw hs
    have hnil : s = [] := List.length_eq_zero.mp (Nat.le_zero.mp hs)
    subst hnil
    simp [runScanF, upto, List.filterMap, pwIn,
      tryRuns_nil hi lo exQ pw hlo (le_trans hlo hhi)]
  | succ f ih =>
    intro s pw hs
    cases s with
    | nil =>
      simp [runScanF, upto, List.filterMap, pwIn,
        tryRuns_nil hi lo exQ pw hlo (le_trans hlo hhi)]
    | cons c cs =>
      cases h : tryRuns hi lo exQ pw (c :: cs) with
      | none =>
        have hstep : runScanF hi lo exQ (f + 1) pw (c :: cs)
            = runScanF hi lo exQ f (isWordChar c) cs := by
          simp [runScanF, h]
        have hcs : cs.length ≤ f := by simp at hs; omega
        rw [hstep, ih cs (isWordChar c) hcs]
        have hfun : (fun i => (tryRuns hi lo exQ (pwIn pw (c :: cs) (i + 1))
              ((c :: cs).drop (i + 1))).map (·.1))
            = fun i => (tryRuns hi lo exQ (pwIn (isWordChar c) cs i) (cs.drop i)).map (·.1) := by
          funext i
          cases i with
          | zero => simp [pwIn, List.getD]
          | succ j => simp [pwIn, List.getD]
        have hshift := upto_shift 0 1 (cs.length + 1)
        simp only [Nat.zero_add] at hshift
        have hsplit : upto 0 ((c :: cs).length + 1)
            = upto 0 1 ++ upto 1 (cs.length + 1) := by
          rw [show (c :: cs).length + 1 = 1 + (cs.length + 1) by simp; omega]
          simpa using upto_append 0 1 (cs.length + 1)
        rw [hsplit, List.filterMap_append, hshift, List.filterMap_map]
        have hhead : (upto 0 1).filterMap
            (fun i => (tryRuns hi lo exQ (pwIn pw (c :: cs) i) ((c :: cs).drop i)).map (·.1))
            = [] := by
          simp [upto, List.filterMap, pwIn, h]
        rw [hhead, List.nil_append]
        congr 1
        funext i
        have := congrFun hfun i
        simpa using (congrFun hfun i).symm
      | some gn =>
        obtain ⟨g, n⟩ := gn
        obtain ⟨hpw, hg, hglen, hdig⟩ := tryRuns_eq_some hlo hhi h
        have hlen : n + 1 ≤ cs.length + 1 := by
          have hlg := congrArg List.length hg
          simp [hglen] at hlg
          omega
        have hstep : runScanF hi lo exQ (f + 1) pw (c :: cs)
            = g :: runScanF hi lo exQ f true (cs.drop n) := by
          simp [runScanF, h]
        have hdn : (cs.drop n).length ≤ f := by
          simp at hs ⊢
          omega
        rw [hstep, ih (cs.drop n) true hdn]
        -- split the position list into the consumed block and the rest
        have hsplit : upto 0 ((c :: cs).length + 1)
            = upto 0 (n + 1) ++ upto (n + 1) (cs.length + 1 - n) := by
          rw [show (c :: cs).length + 1 = (n + 1) + (cs.length + 1 - n) by simp; omega]
          simpa using upto_append 0 (n + 1) (cs.length + 1 - n)
        rw [hsplit, List.filterMap_append]
        -- within the consumed digit run only position 0 matches
        have hdigAt : ∀ j, j < n + 1 → ((c :: cs).getD j ' ').isDigit = true := by
          intro j hj
          have h1 : (c :: cs).getD j ' ' = g.getD j ' ' := by
            rw [hg, getD_take hj]
          rw [h1]
          exact all_digit_getD hdig (by omega) ' '
        have hblock1 : (upto 0 (n + 1)).filterMap
            (fun i => (tryRuns hi lo exQ (pwIn pw (c :: cs) i) ((c :: cs).drop i)).map (·.1))
            = [g] := by
          rw [show upto 0 (n + 1) = 0 :: upto 1 n from rfl]
          rw [List.filterMap_cons]
          have h0 : (tryRuns hi lo exQ (pwIn pw (c :: cs) 0) ((c :: cs).drop 0)).map
              (Prod.fst) = some g := by
            simpa [pwIn] using congrArg (Option.map Prod.fst) h
          rw [h0]
          have hrest : (upto 1 n).filterMap
              (fun i => (tryRuns hi lo exQ (pwIn pw (c :: cs) i) ((c :: cs).drop i)).map (·.1))
              = [] := by
            rw [List.filterMap_eq_nil_iff]
            intro i hi_mem
            obtain ⟨h1i, h2i⟩ := mem_upto.mp hi_mem
            obtain ⟨j, rfl⟩ : ∃ j, i = j + 1 := ⟨i - 1, by omega⟩
            have hw : pwIn pw (c :: cs) (j + 1) = true := by
              show isWordChar ((c :: cs).getD j ' ') = true
              exact isWordChar_of_digit (hdigAt j (by omega))
            rw [hw, tryRuns_pw_true]
            rfl
          rw [hrest]
        rw [hblock1]
        -- the tail block is the recursive scan shifted by n + 1
        have hshift := upto_shift 0 (n + 1) (cs.length + 1 - n)
        simp only [Nat.zero_add] at hshift
        rw [hshift, List.filterMap_map]
        simp only [List.cons_append, List.nil_append]
        rw [show cs.length + 1 - n = (List.drop n cs).length + 1 by simp; omega]
        have hfun2 : (fun i => ((tryRuns hi lo exQ (pwIn true (cs.drop n) i)
              ((cs.drop n).drop i)).map (·.1)))
            = ((fun i => (tryRuns hi lo exQ (pwIn pw (c :: cs) i)
                ((c :: cs).drop i)).map (·.1)) ∘ fun x => x + (n + 1)) := by
          funext i
          simp only [Function.comp_apply]
          have hdropEq : (c :: cs).drop (i + (n + 1)) = (cs.drop n).drop i := by
            rw [List.drop_drop]
            rw [show i + (n + 1) = (i + n) + 1 by omega]
            rw [List.drop_succ_cons]
            rw [show n + i = i + n by omega]
          rw [hdropEq]
          have hpwEq : pwIn pw (c :: cs) (i + (n + 1)) = pwIn true (cs.drop n) i := by
            cases i with
            | zero =>
              rw [show (0 : ℕ) + (n + 1) = n + 1 by omega]
              show isWordChar ((c :: cs).getD n ' ') = true
              exact isWordChar_of_digit (hdigAt n (by omega))
            | succ j =>
              rw [show j + 1 + (n + 1) = (j + (n + 1)) + 1 by omega]
              show isWordChar ((c :: cs).getD (j + (n + 1)) ' ')
                = isWordChar ((cs.drop n).getD j ' ')
              rw [getD_drop, show j + (n + 1) = (n + j) + 1 by omega, List.getD_cons_succ]
          rw [hpwEq]
        rw [hfun2]

/-- The non-overlapping regexp-engine scan for a `\b\d{lo,hi}\b`-shaped
pattern returns exactly the tokens found at each position independently. -/
theorem runScan_eq_runToks (hi lo : ℕ) (exQ : List Char → Bool)
    (hlo : 1 ≤ lo) (hhi : lo ≤ hi) (t : List Char) :
    runScan hi lo exQ t = runToks hi lo exQ t := by
  rw [runScan, runScanF_eq hi lo exQ hlo hhi t.length t false le_rfl, runToks]
  have hfun : (fun i => (tryRuns hi lo exQ (pwIn false t i) (t.drop i)).map (·.1))
      = runTokAt hi lo exQ t := by
    funext i
    rw [runTokAt, wordPrev_eq_pwIn]
  rw [hfun]

/-! ## Supporting lemmas: heuristics, selection loops, confidences -/

theorem scanFirst_wordPrev (f : Bool → List Char → Option α) (t : List Char) :
    scanFirst f false t
      = (upto 0 (t.length + 1)).findSome? fun i => f (wordPrev t i) (t.drop i) := by
  rw [scanFirst_eq_findSome]
  have hfun : (fun i => f (pwIn false t i) (t.drop i))
      = fun i => f (wordPrev t i) (t.drop i) := by
    funext i
    rw [wordPrev_eq_pwIn]
  rw [hfun]

theorem gallonsPos_eq_some {ds : List Char} {r : ℚ × List Char}
    (h : ([1, 2].findSome? fun p =>
        if 1 ≤ insertDec ds p ∧ insertDec ds p ≤ 25 ∧ ds.length = p + 3 then
          some (insertDec ds p, ds)
        else none) = some r) :
    (1 ≤ r.1 ∧ r.1 ≤ 25) ∧ r.2 = ds := by
  by_cases c1 : 1 ≤ insertDec ds 1 ∧ insertDec ds 1 ≤ 25 ∧ ds.length = 1 + 3
  · simp only [List.findSome?_cons, if_pos c1] at h
    obtain rfl : (insertDec ds 1, ds) = r := by simpa using h
    exact ⟨⟨c1.1, c1.2.1⟩, rfl⟩
  · by_cases c2 : 1 ≤ insertDec ds 2 ∧ insertDec ds 2 ≤ 25 ∧ ds.length = 2 + 3
    · simp only [List.findSome?_cons, if_neg c1, if_pos c2] at h
      obtain rfl : (insertDec ds 2, ds) = r := by simpa using h
      exact ⟨⟨c2.1, c2.2.1⟩, rfl⟩
    · simp [List.findSome?_cons, if_neg c1, if_neg c2, List.findSome?] at h

theorem heurGallons_eq_some {cands : List (List Char)} {v : ℚ} {ds : List Char}
    (h : heurGallons cands = some (v, ds)) :
    (1 ≤ v ∧ v ≤ 25) ∧ ds ∈ cands := by
  induction cands with
  | nil => simp [heurGallons] at h
  | cons a l ih =>
    rw [heurGallons, List.findSome?_cons] at h
    cases ha : ([1, 2].findSome? fun p =>
        if 1 ≤ insertDec a p ∧ insertDec a p ≤ 25 ∧ a.length = p + 3 then
          some (insertDec a p, a)
        else none) with
    | some r =>
      rw [ha] at h
      obtain rfl : r = (v, ds) := by simpa using h
      obtain ⟨hb, hds⟩ := gallonsPos_eq_some ha
      exact ⟨hb, by simp [hds.symm]⟩
    | none =>
      rw [ha] at h
      obtain ⟨hb, hmem⟩ := ih h
      exact ⟨hb, by simp [hmem]⟩

theorem totalPos_eq_some {ds : List Char} {r : ℚ × List Char}
    (h : ([2, 3].findSome? fun p =>
        if 10 ≤ insertDec ds p ∧ insertDec ds p ≤ 500 then some (insertDec ds p, ds)
        else none) = some r) :
    (10 ≤ r.1 ∧ r.1 ≤ 500) ∧ r.2 = ds := by
  by_cases c1 : 10 ≤ insertDec ds 2 ∧ insertDec ds 2 ≤ 500
  · simp only [List.findSome?_cons, if_pos c1] at h
    obtain rfl : (insertDec ds 2, ds) = r := by simpa using h
    exact ⟨c1, rfl⟩
  · by_cases c2 : 10 ≤ insertDec ds 3 ∧ insertDec ds 3 ≤ 500
    · simp only [List.findSome?_cons, if_neg c1, if_pos c2] at h
      obtain rfl : (insertDec ds 3, ds) = r := by simpa using h
      exact ⟨c2, rfl⟩
    · simp [List.findSome?_cons, if_neg c1, if_neg c2, List.findSome?] at h

theorem heurTotal_eq_some {gds : Option (List Char)} {cands : List (List Char)}
    {v : ℚ} {ds : List Char} (h : heurTotal gds cands = some (v, ds)) :
    (10 ≤ v ∧ v ≤ 500) ∧ gds ≠ some ds ∧ ds ∈ cands := by
  induction cands with
  | nil => simp [heurTotal] at h
  | cons a l ih =>
    rw [heurTotal, List.findSome?_cons] at h
    by_cases hskip : gds = some a
    · rw [if_pos hskip] at h
      obtain ⟨hb, hne, hmem⟩ := ih h
      exact ⟨hb, hne, by simp [hmem]⟩
    · rw [if_neg hskip] at h
      cases ha : ([2, 3].findSome? fun p =>
          if 10 ≤ insertDec a p ∧ insertDec a p ≤ 500 then some (insertDec a p, a)
          else none) with
      | some r =>
        rw [ha] at h
        obtain rfl : r = (v, ds) := by simpa using h
        obtain ⟨hb, hds⟩ := totalPos_eq_some ha
        refine ⟨hb, ?_, by simp [hds.symm]⟩
        rw [← hds] at hskip
        exact hskip
      | none =>
        rw [ha] at h
        obtain ⟨hb, hne, hmem⟩ := ih h
        exact ⟨hb, hne, by simp [hmem]⟩

theorem findSome?_tot_inRange {L : List (List Char)} {m : List Char} {v : ℚ}
    (h : (L.findSome? fun m =>
        if 10 ≤ parseDec m ∧ parseDec m ≤ 500 then some (m, parseDec m) else none)
      = some (m, v)) :
    (10 ≤ v ∧ v ≤ 500) ∧ v = parseDec m ∧ m ∈ L := by
  induction L with
  | nil => simp at h
  | cons a l ih =>
    rw [List.findSome?_cons] at h
    by_cases hc : 10 ≤ parseDec a ∧ parseDec a ≤ 500
    · simp only [if_pos hc] at h
      obtain ⟨rfl, hv⟩ : a = m ∧ parseDec a = v := by simpa using h
      exact ⟨hv ▸ hc, hv.symm, by simp⟩
    · simp only [if_neg hc] at h
      obtain ⟨hb, hv, hmem⟩ := ih h
      exact ⟨hb, hv, by simp [hmem]⟩

theorem tDirect_eq_some {t : List Char} {m : List Char} {v : ℚ}
    (h : tDirectOf t = some (m, v)) :
    (10 ≤ v ∧ v ≤ 500) ∧ v = parseDec m ∧ m ∈ tMatchesOf t := by
  cases hh : tHeurOf t with
  | some r => simp [tDirectOf, hh] at h
  | none =>
    simp only [tDirectOf, hh] at h
    exact findSome?_tot_inRange h

/-- Range enforcement for `total`: any extracted total value is in [10, 500]. -/
theorem tHeur_eq_some {t : List Char} {v : ℚ} {ds : List Char}
    (h : tHeurOf t = some (v, ds)) :
    heurTotal (gDigitsOf t) (runScan 4 4 alwaysTrue t) = some (v, ds)
    ∧ tMatchesOf t = [] := by
  rw [tHeurOf] at h
  by_cases he : (tMatchesOf t).isEmpty
  · rw [if_pos he] at h
    exact ⟨h, List.isEmpty_iff.mp he⟩
  · rw [if_neg he] at h
    exact absurd h (by simp)

/-- Range enforcement for `total`: any extracted total value is in [10, 500]. -/
theorem totalValOf_range {t : List Char} {v : ℚ} (h : totalValOf t = some v) :
    10 ≤ v ∧ v ≤ 500 := by
  cases hh : tHeurOf t with
  | some r =>
    obtain ⟨v0, ds0⟩ := r
    simp only [totalValOf, hh] at h
    obtain rfl : v0 = v := by simpa using h
    exact (heurTotal_eq_some (tHeur_eq_some hh).1).1
  | none =>
    simp only [totalValOf, hh] at h
    cases hd : tDirectOf t with
    | some r =>
      obtain ⟨m0, v0⟩ := r
      rw [hd] at h
      obtain rfl : v0 = v := by simpa using h
      exact (tDirect_eq_some hd).1
    | none => rw [hd] at h; simp at h

/-- The `reduce` over the odometer matches picks a member of the list that is
numerically maximal. -/
theorem foldl_pickMax_spec (m : List Char) (rest : List (List Char)) :
    rest.foldl pickMax m ∈ m :: rest
    ∧ ∀ x ∈ m :: rest, digitsToNat x ≤ digitsToNat (rest.foldl pickMax m) := by
  induction rest generalizing m with
  | nil => exact ⟨by simp, by simp⟩
  | cons b bs ih =>
    have hstep : (b :: bs).foldl pickMax m = bs.foldl pickMax (pickMax m b) := rfl
    obtain ⟨hmem, hmax⟩ := ih (pickMax m b)
    have hm : digitsToNat m ≤ digitsToNat (pickMax m b) := by
      rw [pickMax]
      by_cases hc : digitsToNat m > digitsToNat b
      · simp [hc]
      · simp only [if_neg hc]
        omega
    have hb : digitsToNat b ≤ digitsToNat (pickMax m b) := by
      rw [pickMax]
      by_cases hc : digitsToNat m > digitsToNat b
      · simp only [if_pos hc]
        omega
      · simp [hc]
    have hd : digitsToNat (pickMax m b) ≤ digitsToNat (bs.foldl pickMax (pickMax m b)) :=
      hmax _ (by simp)
    constructor
    · rw [hstep]
      rcases List.mem_cons.mp hmem with h | h
      · rw [h, pickMax]
        by_cases hc : digitsToNat m > digitsToNat b
        · simp [hc]
        · simp [hc]
      · exact List.mem_cons_of_mem _ (List.mem_cons_of_mem _ h)
    · intro x hx
      rw [hstep]
      have hxin : x = m ∨ x = b ∨ x ∈ bs := by simpa using hx
      rcases hxin with rfl | rfl | hxs
      · exact le_trans hm hd
      · exact le_trans hb hd
      · exact hmax x (by simp [hxs])

/-- `find?` over a list decomposed around its first satisfying element. -/
theorem find?_first {p : OcrLine → Bool} {l : OcrLine} (L1 L2 : List OcrLine)
    (hL1 : ∀ l' ∈ L1, ¬ p l' = true) (hl : p l = true) :
    (L1 ++ l :: L2).find? p = some l := by
  induction L1 with
  | nil => simp [List.find?_cons_of_pos, hl]
  | cons a as ih =>
    have ha : ¬ p a = true := hL1 a (by simp)
    rw [List.cons_append, List.find?_cons_of_neg _ ha]
    exact ih fun l' hm => hL1 l' (by simp [hm])

/-- `totalConfOf` once the total value is known: the `toString` rescan takes
precedence, and the direct-match loop's assignment is kept when it misses. -/
theorem totalConfOf_eq {t : List Char} {tv : ℚ} (lines : List OcrLine)
    (h : totalValOf t = some tv) :
    totalConfOf t lines
      = match lines.find? (totStrHitP tv) with
        | some l => if l.confidence = 0 then 70 else l.confidence
        | none => tConf1Of t lines := by
  rw [totalConfOf, h]

/-- Evaluation helper: `parseDec` on a concrete string, with the character
and digit computations discharged separately. -/
theorem parseDec_decomp (s ip fp : List Char) (a b k : ℕ)
    (h1 : s.takeWhile (fun c => c ≠ '.') = ip)
    (h2 : (s.dropWhile (fun c => c ≠ '.')).drop 1 = fp)
    (h3 : digitsToNat ip = a) (h4 : digitsToNat fp = b) (h5 : fp.length = k) :
    parseDec s = (a : ℚ) + (b : ℚ) / (10 : ℚ) ^ k := by
  simp only [parseDec, h1, h2, h3, h4, h5]

/-- Evaluation helper: `insertDec` on a concrete string. -/
theorem insertDec_decomp (ds : List Char) (p a b k : ℕ)
    (h1 : digitsToNat (ds.take p) = a) (h2 : digitsToNat (ds.drop p) = b)
    (h3 : ds.length - p = k) :
    insertDec ds p = (a : ℚ) + (b : ℚ) / (10 : ℚ) ^ k := by
  simp only [insertDec, h1, h2, h3]

/-! ## Claim-side specification functions, scenario inputs -/

/-- Specification reading of the gallons extraction (claim C1): the first
position carrying a token of 1–2 integer digits, a decimal point and exactly
3 fractional digits wins; otherwise the standalone 4–5-digit integer tokens
of the text (in position order) are scanned, and the first decimal insertion
(after position 1, then position 2) whose value lies in [1, 25] and whose
digit count equals the insertion position plus 3 is accepted. -/
def gallonsSpec (t : List Char) : Option ℚ :=
  match (upto 0 (t.length + 1)).findSome? fun i => tryG (wordPrev t i) (t.drop i) with
  | some g => some (parseDec g)
  | none => (heurGallons (runToks 5 4 alwaysTrue t)).map (·.1)

/-- Spec §8 Scenario 1 input. -/
def scenario1 : OcrResult :=
  ⟨"GALLONS\n9.811\nSALE $35.51".data, [⟨"9.811".data, 90⟩, ⟨"$35.51".data, 88⟩]⟩

/-- Spec §8 Scenario 2 input (LCD-artifact corrupted). -/
def scenario2 : OcrResult :=
  ⟨"GALLONS\n9.8 | 1\nSALE $35.51".data, [⟨"9.811".data, 90⟩, ⟨"$35.51".data, 88⟩]⟩

/-- The record produced by `parsePumpData`, stated once so that claims can
rewrite field projections without unfolding the pipeline. -/
theorem parsePumpData_fields (ocr : OcrResult) :
    parsePumpData ocr
      = { gallons := ⟨gallonsValOf (cleanPump ocr.text), gallonsConfOf (cleanPump ocr.text) ocr.lines⟩
          pricePerGallon := ⟨priceValOf (cleanPump ocr.text), priceConfOf (cleanPump ocr.text) ocr.lines⟩
          total := ⟨totalValOf (cleanPump ocr.text), totalConfOf (cleanPump ocr.text) ocr.lines⟩ } := rfl

theorem parsePumpData_congr {o1 o2 : OcrResult}
    (ht : cleanPump o1.text = cleanPump o2.text) (hl : o1.lines = o2.lines) :
    parsePumpData o1 = parsePumpData o2 := by
  rw [parsePumpData_fields, parsePumpData_fields, ht, hl]

/-! ## The claims -/

/-- C1: for every OcrResult, `parsePumpData` extracts gallons as follows: the
first token in the cleaned text matching 1–2 integer digits, a decimal point,
and exactly 3 fractional digits wins; if no such token exists, it scans
standalone 4–5-digit integer tokens in order and, for each, tries inserting a
decimal point after position 1 then position 2, accepting the first candidate
whose value lies in [1, 25] and whose original digit count equals the
insertion position plus 3; if neither succeeds, `gallons.value` is null. -/
theorem claim1_gallons_extraction (ocr : OcrResult) :
    (parsePumpData ocr).gallons.value = gallonsSpec (cleanPump ocr.text) := by
  simp only [parsePumpData_fields]
  generalize cleanPump ocr.text = t
  have hg : gDirectOf t
      = (upto 0 (t.length + 1)).findSome? fun i => tryG (wordPrev t i) (t.drop i) :=
    scanFirst_wordPrev tryG t
  cases hfs : (upto 0 (t.length + 1)).findSome? fun i => tryG (wordPrev t i) (t.drop i) with
  | some g =>
    have h1 : gDirectOf t = some g := by rw [hg, hfs]
    simp [gallonsValOf, gHeurOf, h1, gallonsSpec, hfs]
  | none =>
    have h1 : gDirectOf t = none := by rw [hg, hfs]
    have h2 : runScan 5 4 alwaysTrue t = runToks 5 4 alwaysTrue t :=
      runScan_eq_runToks 5 4 alwaysTrue (by omega) (by omega) t
    simp only [gallonsValOf, gHeurOf, h1, gallonsSpec, hfs, h2]
    cases hh : heurGallons (runToks 5 4 alwaysTrue t) with
    | some r =>
      obtain ⟨v, ds⟩ := r
      simp [hh]
    | none => simp [hh]

/-- C4: for every OcrResult, `parseOdometerData` collects all standalone
5–6-digit tokens not immediately followed by a decimal point and digit; if
the set is empty it returns `{ miles: { value: null, confidence: 0 } }`,
otherwise `miles.value` is the numerically largest candidate. -/
theorem claim4_odometer_extraction (ocr : OcrResult) :
    (runToks 6 5 noDotDigit ocr.text = [] → parseOdometerData ocr = ⟨⟨none, 0⟩⟩)
    ∧ (runToks 6 5 noDotDigit ocr.text ≠ [] →
        ∃ g, g ∈ runToks 6 5 noDotDigit ocr.text
          ∧ (parseOdometerData ocr).miles.value = some (digitsToNat g : ℚ)
          ∧ ∀ x ∈ runToks 6 5 noDotDigit ocr.text, digitsToNat x ≤ digitsToNat g) := by
  have hsc : runScan 6 5 noDotDigit ocr.text = runToks 6 5 noDotDigit ocr.text :=
    runScan_eq_runToks 6 5 noDotDigit (by omega) (by omega) ocr.text
  constructor
  · intro he
    rw [← hsc] at he
    simp [parseOdometerData, odoChosenOf, he]
  · intro hne
    rw [← hsc] at hne
    cases hms : runScan 6 5 noDotDigit ocr.text with
    | nil => exact absurd hms hne
    | cons m rest =>
      obtain ⟨hmem, hmax⟩ := foldl_pickMax_spec m rest
      refine ⟨rest.foldl pickMax m, ?_, ?_, ?_⟩
      · rw [← hsc, hms]
        exact hmem
      · simp [parseOdometerData, odoChosenOf, hms]
      · intro x hx
        apply hmax
        rw [← hsc, hms] at hx
        exact hx

theorem claim4_witness :
    runToks 6 5 noDotDigit "12345 99999 123".data ≠ []
    ∧ ∃ g, g ∈ runToks 6 5 noDotDigit "12345 99999 123".data
        ∧ (parseOdometerData ⟨"12345 99999 123".data, []⟩).miles.value
            = some (digitsToNat g : ℚ)
        ∧ ∀ x ∈ runToks 6 5 noDotDigit "12345 99999 123".data,
            digitsToNat x ≤ digitsToNat g :=
  ⟨by decide, (claim4_odometer_extraction ⟨"12345 99999 123".data, []⟩).2 (by decide)⟩

/-- C7: for every single OcrResult, the digit token consumed by the gallons
numeric-reconstruction heuristic is never also accepted as the source token
of the total numeric-reconstruction heuristic in the same `parsePumpData`
call (`tHeurOf`/`gDigitsOf` are that call's total-heuristic result and
consumed gallons token). -/
theorem claim7_no_double_counting (ocr : OcrResult) (v : ℚ) (ds : List Char)
    (h : tHeurOf (cleanPump ocr.text) = some (v, ds)) :
    gDigitsOf (cleanPump ocr.text) ≠ some ds :=
  (heurTotal_eq_some (tHeur_eq_some h).1).2.1

theorem claim7_witness :
    tHeurOf (cleanPump "1234 5948".data) = some (5948 / 100, "5948".data)
    ∧ gDigitsOf (cleanPump "1234 5948".data) ≠ some "5948".data := by
  have h : tHeurOf (cleanPump "1234 5948".data) = some (5948 / 100, "5948".data) := by
    with_unfolding_all decide
  exact ⟨h, claim7_no_double_counting ⟨"1234 5948".data, []⟩ (5948 / 100) "5948".data h⟩

/-- C9: `parsePumpData` and `parseOdometerData` are total functions (parsing
failure is a value, never an exception), and every returned FieldValue
satisfies the invariant that a null value has confidence 0. -/
theorem claim9_null_implies_zero_conf (ocr : OcrResult) :
    ((parsePumpData ocr).gallons.value = none → (parsePumpData ocr).gallons.confidence = 0)
    ∧ ((parsePumpData ocr).pricePerGallon.value = none →
        (parsePumpData ocr).pricePerGallon.confidence = 0)
    ∧ ((parsePumpData ocr).total.value = none → (parsePumpData ocr).total.confidence = 0)
    ∧ ((parseOdometerData ocr).miles.value = none →
        (parseOdometerData ocr).miles.confidence = 0) := by
  simp only [parsePumpData_fields]
  generalize cleanPump ocr.text = t
  refine ⟨?_, ?_, ?_, ?_⟩
  · intro h
    simp [gallonsConfOf, h, truthy]
  · intro h
    by_cases hc : (truthy (totalValOf t) && truthy (gallonsValOf t)) = true
    · exfalso
      simp [priceValOf, hc] at h
    · simp [priceConfOf, hc]
  · intro h
    simp [totalConfOf, h]
  · intro h
    cases hc : odoChosenOf ocr.text with
    | none => simp [parseOdometerData, hc]
    | some chosen => simp [parseOdometerData, hc] at h

theorem claim9_witness :
    (parsePumpData ⟨"x".data, []⟩).gallons.confidence = 0
    ∧ (parsePumpData ⟨"x".data, []⟩).pricePerGallon.confidence = 0
    ∧ (parsePumpData ⟨"x".data, []⟩).total.confidence = 0
    ∧ (parseOdometerData ⟨"x".data, []⟩).miles.confidence = 0 :=
  ⟨(claim9_null_implies_zero_conf ⟨"x".data, []⟩).1 (by decide),
   (claim9_null_implies_zero_conf ⟨"x".data, []⟩).2.1 (by decide),
   (claim9_null_implies_zero_conf ⟨"x".data, []⟩).2.2.1 (by decide),
   (claim9_null_implies_zero_conf ⟨"x".data, []⟩).2.2.2 (by decide)⟩

/-- C10: the direct 3-decimal gallons pattern applies no range check: on the
text `"99.999"`, `parsePumpData` returns gallons 99.999, outside [1, 25]; the
[1, 25] bound constrains only the numeric-reconstruction heuristic. -/
theorem claim10_direct_gallons_unbounded :
    (parsePumpData ⟨"99.999".data, []⟩).gallons.value = some (99999 / 1000)
    ∧ ¬ ((99999 / 1000 : ℚ) ≤ 25)
    ∧ ∀ (cands : List (List Char)) (v : ℚ) (ds : List Char),
        heurGallons cands = some (v, ds) → 1 ≤ v ∧ v ≤ 25 := by
  refine ⟨?_, by norm_num, fun cands v ds h => (heurGallons_eq_some h).1⟩
  have hcl : cleanPump "99.999".data = "99.999".data := by decide
  have hgd : gDirectOf "99.999".data = some "99.999".data := by decide
  have h1 : "99.999".data.takeWhile (fun c => c ≠ '.') = "99".data := by decide
  have h2 : ("99.999".data.dropWhile (fun c => c ≠ '.')).drop 1 = "999".data := by decide
  have hpd : parseDec "99.999".data = 99999 / 1000 := by
    simp only [parseDec, h1, h2, show digitsToNat "99".data = 99 from by decide,
      show digitsToNat "999".data = 999 from by decide,
      show ("999".data).length = 3 from by decide]
    norm_num
  simp only [parsePumpData_fields, hcl]
  simp [gallonsValOf, gHeurOf, hgd, hpd]

theorem claim10_witness :
    heurGallons ["1234".data] = some (1234 / 1000, "1234".data)
    ∧ 1 ≤ (1234 / 1000 : ℚ) ∧ (1234 / 1000 : ℚ) ≤ 25 := by
  have he : heurGallons ["1234".data] = some (1234 / 1000, "1234".data) := by
    with_unfolding_all decide
  exact ⟨he, claim10_direct_gallons_unbounded.2.2 ["1234".data] (1234 / 1000) "1234".data he⟩

/-- C3 counterexample: on the text `"0.000 $35.51"` both `total` and
`gallons` are non-null (`gallons.value = 0`), yet no price is derived — the
code's truthiness test `if (total && gallons && ...)` treats the number 0 as
absent, so "set exactly when both total and gallons are non-null" is false. -/
theorem claim3_counterexample :
    (parsePumpData ⟨"0.000 $35.51".data, []⟩).gallons.value = some 0
    ∧ (parsePumpData ⟨"0.000 $35.51".data, []⟩).total.value = some (3551 / 100)
    ∧ (parsePumpData ⟨"0.000 $35.51".data, []⟩).pricePerGallon.value = none := by
  have hcl : cleanPump "0.000 $35.51".data = "0.000 $35.51".data := by decide
  have hgd : gDirectOf "0.000 $35.51".data = some "0.000".data := by decide
  have hp0 : parseDec "0.000".data = 0 := by
    simp only [parseDec,
      show "0.000".data.takeWhile (fun c => c ≠ '.') = "0".data from by decide,
      show ("0.000".data.dropWhile (fun c => c ≠ '.')).drop 1 = "000".data from by decide,
      show digitsToNat "0".data = 0 from by decide,
      show digitsToNat "000".data = 0 from by decide]
    norm_num
  have hgv : gallonsValOf "0.000 $35.51".data = some 0 := by
    simp [gallonsValOf, gHeurOf, hgd, hp0]
  have htm : tMatchesOf "0.000 $35.51".data = ["35.51".data] := by decide
  have hp35 : parseDec "35.51".data = 3551 / 100 := by
    simp only [parseDec,
      show "35.51".data.takeWhile (fun c => c ≠ '.') = "35".data from by decide,
      show ("35.51".data.dropWhile (fun c => c ≠ '.')).drop 1 = "51".data from by decide,
      show digitsToNat "35".data = 35 from by decide,
      show digitsToNat "51".data = 51 from by decide,
      show ("51".data).length = 2 from by decide]
    norm_num
  have hth : tHeurOf "0.000 $35.51".data = none := by
    simp [tHeurOf, htm]
  have hcond : 10 ≤ (3551 / 100 : ℚ) ∧ (3551 / 100 : ℚ) ≤ 500 := by norm_num
  have htd : tDirectOf "0.000 $35.51".data = some ("35.51".data, 3551 / 100) := by
    simp only [tDirectOf, hth, htm, List.findSome?_cons, hp35, if_pos hcond]
  have htv : totalValOf "0.000 $35.51".data = some (3551 / 100) := by
    simp [totalValOf, hth, htd]
  have hpr : priceValOf "0.000 $35.51".data = none := by
    simp [priceValOf, htv, hgv, truthy]
  refine ⟨?_, ?_, ?_⟩ <;> simp only [parsePumpData_fields] <;> rw [hcl]
  · exact hgv
  · exact htv
  · exact hpr

/-- C3 amended: `parsePumpData` never derives gallons or total by
reconciliation (they are exactly the pattern-extraction results); the only
synthetic field is `pricePerGallon`, set exactly when both `total` and
`gallons` are non-null **and gallons is nonzero** (JS truthiness), with value
`total / gallons` and confidence `min(total.confidence, gallons.confidence)`
exactly; otherwise it is `{ value: null, confidence: 0 }`. -/
theorem claim3_price_derivation (ocr : OcrResult) :
    ((parsePumpData ocr).gallons.value = gallonsValOf (cleanPump ocr.text)
      ∧ (parsePumpData ocr).total.value = totalValOf (cleanPump ocr.text))
    ∧ (∀ tv gv, (parsePumpData ocr).total.value = some tv →
        (parsePumpData ocr).gallons.value = some gv → gv ≠ 0 →
        (parsePumpData ocr).pricePerGallon.value = some (tv / gv)
          ∧ (parsePumpData ocr).pricePerGallon.confidence
              = min (parsePumpData ocr).total.confidence (parsePumpData ocr).gallons.confidence)
    ∧ (((parsePumpData ocr).total.value = none ∨ (parsePumpData ocr).gallons.value = none
          ∨ (parsePumpData ocr).gallons.value = some 0) →
        (parsePumpData ocr).pricePerGallon.value = none
          ∧ (parsePumpData ocr).pricePerGallon.confidence = 0) := by
  simp only [parsePumpData_fields]
  generalize cleanPump ocr.text = t
  refine ⟨by constructor <;> trivial, ?_, ?_⟩
  · intro tv gv htv hgv hgnz
    have htnz : tv ≠ 0 := by
      have h10 := (totalValOf_range htv).1
      intro h0
      rw [h0] at h10
      norm_num at h10
    have htr : truthy (some tv) = true := by simp [truthy, htnz]
    have hgr : truthy (some gv) = true := by simp [truthy, hgnz]
    constructor
    · simp [priceValOf, htv, hgv, htr, hgr]
    · simp [priceConfOf, htv, hgv, htr, hgr]
  · intro hcase
    have hfalse : (truthy (totalValOf t) && truthy (gallonsValOf t)) = false := by
      rcases hcase with h | h | h <;> simp [h, truthy]
    exact ⟨by simp [priceValOf, hfalse], by simp [priceConfOf, hfalse]⟩

theorem claim3_witness :
    (parsePumpData ⟨"9.811 $35.51".data, []⟩).pricePerGallon.value
      = some ((3551 / 100 : ℚ) / (9811 / 1000))
    ∧ (parsePumpData ⟨"9.811 $35.51".data, []⟩).pricePerGallon.confidence
      = min (parsePumpData ⟨"9.811 $35.51".data, []⟩).total.confidence
          (parsePumpData ⟨"9.811 $35.51".data, []⟩).gallons.confidence := by
  have hcl : cleanPump "9.811 $35.51".data = "9.811 $35.51".data := by decide
  have hgd : gDirectOf "9.811 $35.51".data = some "9.811".data := by decide
  have hp9 : parseDec "9.811".data = 9811 / 1000 := by
    simp only [parseDec,
      show "9.811".data.takeWhile (fun c => c ≠ '.') = "9".data from by decide,
      show ("9.811".data.dropWhile (fun c => c ≠ '.')).drop 1 = "811".data from by decide,
      show digitsToNat "9".data = 9 from by decide,
      show digitsToNat "811".data = 811 from by decide,
      show ("811".data).length = 3 from by decide]
    norm_num
  have hgv : gallonsValOf "9.811 $35.51".data = some (9811 / 1000) := by
    simp [gallonsValOf, gHeurOf, hgd, hp9]
  have htm : tMatchesOf "9.811 $35.51".data = ["35.51".data] := by decide
  have hp35 : parseDec "35.51".data = 3551 / 100 := by
    simp only [parseDec,
      show "35.51".data.takeWhile (fun c => c ≠ '.') = "35".data from by decide,
      show ("35.51".data.dropWhile (fun c => c ≠ '.')).drop 1 = "51".data from by decide,
      show digitsToNat "35".data = 35 from by decide,
      show digitsToNat "51".data = 51 from by decide,
      show ("51".data).length = 2 from by decide]
    norm_num
  have hth : tHeurOf "9.811 $35.51".data = none := by
    simp [tHeurOf, htm]
  have hcond : 10 ≤ (3551 / 100 : ℚ) ∧ (3551 / 100 : ℚ) ≤ 500 := by norm_num
  have htd : tDirectOf "9.811 $35.51".data = some ("35.51".data, 3551 / 100) := by
    simp only [tDirectOf, hth, htm, List.findSome?_cons, hp35, if_pos hcond]
  have htv : totalValOf "9.811 $35.51".data = some (3551 / 100) := by
    simp [totalValOf, hth, htd]
  have htv' : (parsePumpData ⟨"9.811 $35.51".data, []⟩).total.value = some (3551 / 100) := by
    simp only [parsePumpData_fields]
    rw [hcl]
    exact htv
  have hgv' : (parsePumpData ⟨"9.811 $35.51".data, []⟩).gallons.value = some (9811 / 1000) := by
    simp only [parsePumpData_fields]
    rw [hcl]
    exact hgv
  exact (claim3_price_derivation ⟨"9.811 $35.51".data, []⟩).2.1 (3551 / 100) (9811 / 1000)
    htv' hgv' (by norm_num)

/-- C6 counterexample: on text `"9.811"` with the single OCR line `"zz"`
(confidence 50), gallons is successfully matched, no line contains the
matched substring (or the value's string form), and the assigned confidence
is 0 — not the default fallback 70 the claim asserts. -/
theorem claim6_counterexample :
    (parsePumpData ⟨"9.811".data, [⟨"zz".data, 50⟩]⟩).gallons.value = some (9811 / 1000)
    ∧ (∀ l ∈ ([⟨"zz".data, 50⟩] : List OcrLine), includes "9.811".data l.text = false)
    ∧ (parsePumpData ⟨"9.811".data, [⟨"zz".data, 50⟩]⟩).gallons.confidence = 0
    ∧ (0 : ℚ) ≠ 70 := by
  have hcl : cleanPump "9.811".data = "9.811".data := by decide
  have hgd : gDirectOf "9.811".data = some "9.811".data := by decide
  have hp9 : parseDec "9.811".data = 9811 / 1000 := by
    rw [parseDec_decomp "9.811".data "9".data "811".data 9 811 3 (by decide) (by decide)
      (by decide) (by decide) (by decide)]
    norm_num
  have hgv : gallonsValOf "9.811".data = some (9811 / 1000) := by
    simp [gallonsValOf, gHeurOf, hgd, hp9]
  have hms : gMatchStrOf "9.811".data = "9.811".data := by
    simp [gMatchStrOf, gHeurOf, hgd]
  have hns : numToString (9811 / 1000 : ℚ) = "9.811".data := by with_unfolding_all decide
  have htruthy : truthy (some (9811 / 1000 : ℚ)) = true := by
    simp only [truthy, bne_iff_ne, ne_eq, decide_eq_true_eq]
    norm_num
  have hpred : gallonsHitP "9.811".data ⟨"zz".data, 50⟩ = false := by
    simp only [gallonsHitP, hms, hgv, Option.getD_some, hns]
    decide
  have hconf : gallonsConfOf "9.811".data [⟨"zz".data, 50⟩] = 0 := by
    rw [gallonsConfOf, hgv, htruthy, if_pos rfl, lineHit,
      List.find?_cons_of_neg _ (by simp [hpred])]
    simp
  refine ⟨?_, by decide, ?_, by norm_num⟩
  · simp only [parsePumpData_fields]
    rw [hcl]
    exact hgv
  · simp only [parsePumpData_fields]
    rw [hcl]
    exact hconf

/-- C6 amended: for each successfully matched field, the confidence comes
from the first line satisfying that field's containment predicate, with 70
substituted when that line's own confidence is falsy (0); when **no** line
satisfies the predicate, the confidence remains 0 (not the claimed default
70).  For gallons the predicate accepts the matched substring or the value's
string rendering.  For total the `toString` rescan takes precedence: the
first line containing `total.toString()` decides; only when no line contains
it does the direct-match loop's lookup (first line containing `match[1]`)
stand, and a heuristic-sourced total (no direct match) then keeps 0. -/
theorem claim6_confidence_lookup (ocr : OcrResult) :
    (truthy (parsePumpData ocr).gallons.value = true →
      ((∀ l ∈ ocr.lines, ¬ gallonsHitP (cleanPump ocr.text) l = true) →
          (parsePumpData ocr).gallons.confidence = 0)
        ∧ ∀ (L1 L2 : List OcrLine) (l : OcrLine), ocr.lines = L1 ++ l :: L2 →
            (∀ l' ∈ L1, ¬ gallonsHitP (cleanPump ocr.text) l' = true) →
            gallonsHitP (cleanPump ocr.text) l = true →
            (parsePumpData ocr).gallons.confidence
              = if l.confidence = 0 then 70 else l.confidence)
    ∧ (∀ chosen, odoChosenOf ocr.text = some chosen →
        ((∀ l ∈ ocr.lines, ¬ milesHitP chosen l = true) →
            (parseOdometerData ocr).miles.confidence = 0)
          ∧ ∀ (L1 L2 : List OcrLine) (l : OcrLine), ocr.lines = L1 ++ l :: L2 →
              (∀ l' ∈ L1, ¬ milesHitP chosen l' = true) →
              milesHitP chosen l = true →
              (parseOdometerData ocr).miles.confidence
                = if l.confidence = 0 then 70 else l.confidence)
    ∧ (∀ tv, (parsePumpData ocr).total.value = some tv →
        (∀ (L1 L2 : List OcrLine) (l : OcrLine), ocr.lines = L1 ++ l :: L2 →
            (∀ l' ∈ L1, ¬ totStrHitP tv l' = true) →
            totStrHitP tv l = true →
            (parsePumpData ocr).total.confidence
              = if l.confidence = 0 then 70 else l.confidence)
          ∧ ((∀ l ∈ ocr.lines, ¬ totStrHitP tv l = true) →
              (∀ m v, tDirectOf (cleanPump ocr.text) = some (m, v) →
                  ((∀ l ∈ ocr.lines, ¬ totMatchHitP m l = true) →
                      (parsePumpData ocr).total.confidence = 0)
                    ∧ ∀ (L1 L2 : List OcrLine) (l : OcrLine), ocr.lines = L1 ++ l :: L2 →
                        (∀ l' ∈ L1, ¬ totMatchHitP m l' = true) →
                        totMatchHitP m l = true →
                        (parsePumpData ocr).total.confidence
                          = if l.confidence = 0 then 70 else l.confidence)
                ∧ (tDirectOf (cleanPump ocr.text) = none →
                    (parsePumpData ocr).total.confidence = 0))) := by
  simp only [parsePumpData_fields]
  refine ⟨?_, ?_, ?_⟩
  · intro htr
    constructor
    · intro hnone
      rw [gallonsConfOf, if_pos htr, lineHit, List.find?_eq_none.mpr hnone]
    · intro L1 L2 l hsplit hL1 hl
      rw [gallonsConfOf, if_pos htr, lineHit, hsplit, find?_first L1 L2 hL1 hl]
  · intro chosen hch
    constructor
    · intro hnone
      simp only [parseOdometerData, hch]
      rw [lineHit, List.find?_eq_none.mpr hnone]
    · intro L1 L2 l hsplit hL1 hl
      simp only [parseOdometerData, hch]
      rw [lineHit, hsplit, find?_first L1 L2 hL1 hl]
  · intro tv htv
    constructor
    · intro L1 L2 l hsplit hL1 hl
      rw [totalConfOf_eq ocr.lines htv, hsplit, find?_first L1 L2 hL1 hl]
    · intro hstr
      have hbase : totalConfOf (cleanPump ocr.text) ocr.lines
          = tConf1Of (cleanPump ocr.text) ocr.lines := by
        rw [totalConfOf_eq ocr.lines htv, List.find?_eq_none.mpr hstr]
      constructor
      · intro m v hd
        have hc : totalConfOf (cleanPump ocr.text) ocr.lines
            = lineHit ocr.lines (totMatchHitP m) := by
          rw [hbase, tConf1Of, hd]
        constructor
        · intro hnone
          rw [hc, lineHit, List.find?_eq_none.mpr hnone]
        · intro L1 L2 l hsplit hL1 hl
          rw [hc, lineHit, hsplit, find?_first L1 L2 hL1 hl]
      · intro hd
        rw [hbase, tConf1Of, hd]

theorem claim6_witness :
    (parsePumpData ⟨"9.811".data, [⟨"9.811".data, 0⟩]⟩).gallons.confidence = 70
    ∧ (parsePumpData ⟨"SALE $35.51".data, [⟨"35.51".data, 88⟩]⟩).total.confidence = 88 := by
  have hcl : cleanPump "9.811".data = "9.811".data := by decide
  have hgd : gDirectOf "9.811".data = some "9.811".data := by decide
  have hp9 : parseDec "9.811".data = 9811 / 1000 := by
    rw [parseDec_decomp "9.811".data "9".data "811".data 9 811 3 (by decide) (by decide)
      (by decide) (by decide) (by decide)]
    norm_num
  have hgv : gallonsValOf "9.811".data = some (9811 / 1000) := by
    simp [gallonsValOf, gHeurOf, hgd, hp9]
  have hms : gMatchStrOf "9.811".data = "9.811".data := by
    simp [gMatchStrOf, gHeurOf, hgd]
  have htruthy : truthy (parsePumpData ⟨"9.811".data, [⟨"9.811".data, 0⟩]⟩).gallons.value
      = true := by
    simp only [parsePumpData_fields]
    rw [hcl, hgv]
    simp only [truthy, bne_iff_ne, ne_eq, decide_eq_true_eq]
    norm_num
  have hl : gallonsHitP (cleanPump "9.811".data) ⟨"9.811".data, 0⟩ = true := by
    rw [hcl]
    simp only [gallonsHitP, hms]
    decide
  have h := ((claim6_confidence_lookup ⟨"9.811".data, [⟨"9.811".data, 0⟩]⟩).1 htruthy).2
    [] [] ⟨"9.811".data, 0⟩ rfl (by simp) hl
  have hcl2 : cleanPump "SALE $35.51".data = "SALE $35.51".data := by decide
  have htm2 : tMatchesOf "SALE $35.51".data = ["35.51".data] := by decide
  have hp35 : parseDec "35.51".data = 3551 / 100 := by
    rw [parseDec_decomp "35.51".data "35".data "51".data 35 51 2 (by decide) (by decide)
      (by decide) (by decide) (by decide)]
    norm_num
  have hth2 : tHeurOf "SALE $35.51".data = none := by
    simp [tHeurOf, htm2]
  have hcond2 : 10 ≤ (3551 / 100 : ℚ) ∧ (3551 / 100 : ℚ) ≤ 500 := by norm_num
  have htd2 : tDirectOf "SALE $35.51".data = some ("35.51".data, 3551 / 100) := by
    simp only [tDirectOf, hth2, htm2, List.findSome?_cons, hp35, if_pos hcond2]
  have htv2 : totalValOf "SALE $35.51".data = some (3551 / 100) := by
    simp [totalValOf, hth2, htd2]
  have htv2' : (parsePumpData ⟨"SALE $35.51".data, [⟨"35.51".data, 88⟩]⟩).total.value
      = some (3551 / 100) := by
    simp only [parsePumpData_fields]
    rw [hcl2]
    exact htv2
  have hns2 : numToString (3551 / 100 : ℚ) = "35.51".data := by with_unfolding_all decide
  have hhit2 : totStrHitP (3551 / 100) ⟨"35.51".data, 88⟩ = true := by
    simp only [totStrHitP, hns2]
    decide
  have h2 := ((claim6_confidence_lookup ⟨"SALE $35.51".data, [⟨"35.51".data, 88⟩]⟩).2.2
    (3551 / 100) htv2').1 [] [] ⟨"35.51".data, 88⟩ rfl (by simp) hhit2
  refine ⟨by rw [h]; norm_num, by rw [h2]; norm_num⟩

/-- C8 counterexample: with results `["0.000", "5.123"]` (no lexical
indicators), the first result yields a **non-null** gallons value (0), yet
the fallback pass takes pump data from the second result — the code selects
the first *truthy* (non-null and nonzero) gallons value, not the first
non-null one. -/
theorem claim8_counterexample :
    (parsePumpData ⟨"0.000".data, []⟩).gallons.value = some 0
    ∧ (detectAndParseData [⟨"0.000".data, []⟩, ⟨"5.123".data, []⟩]).1
        = parsePumpData ⟨"5.123".data, []⟩
    ∧ (parsePumpData ⟨"5.123".data, []⟩).gallons.value
        ≠ (parsePumpData ⟨"0.000".data, []⟩).gallons.value := by
  have hcl1 : cleanPump "0.000".data = "0.000".data := by decide
  have hgd1 : gDirectOf "0.000".data = some "0.000".data := by decide
  have hp0 : parseDec "0.000".data = 0 := by
    rw [parseDec_decomp "0.000".data "0".data "000".data 0 0 3 (by decide) (by decide)
      (by decide) (by decide) (by decide)]
    norm_num
  have h1v : (parsePumpData ⟨"0.000".data, []⟩).gallons.value = some 0 := by
    simp only [parsePumpData_fields]
    rw [hcl1]
    simp [gallonsValOf, gHeurOf, hgd1, hp0]
  have hcl2 : cleanPump "5.123".data = "5.123".data := by decide
  have hgd2 : gDirectOf "5.123".data = some "5.123".data := by decide
  have hp5 : parseDec "5.123".data = 5123 / 1000 := by
    rw [parseDec_decomp "5.123".data "5".data "123".data 5 123 3 (by decide) (by decide)
      (by decide) (by decide) (by decide)]
    norm_num
  have h2v : (parsePumpData ⟨"5.123".data, []⟩).gallons.value = some (5123 / 1000) := by
    simp only [parsePumpData_fields]
    rw [hcl2]
    simp [gallonsValOf, gHeurOf, hgd2, hp5]
  have hpass : pass1 [(⟨"0.000".data, []⟩ : OcrResult), ⟨"5.123".data, []⟩]
      = (emptyPump, emptyOdo) := by decide
  have ht1 : truthy (parsePumpData ⟨"0.000".data, []⟩).gallons.value = false := by
    rw [h1v]
    simp [truthy]
  have ht2 : truthy (parsePumpData ⟨"5.123".data, []⟩).gallons.value = true := by
    rw [h2v]
    simp only [truthy, bne_iff_ne, ne_eq, decide_eq_true_eq]
    norm_num
  have hfind : (([(⟨"0.000".data, []⟩ : OcrResult), ⟨"5.123".data, []⟩]).map
        parsePumpData).find? (fun d => truthy d.gallons.value)
      = some (parsePumpData ⟨"5.123".data, []⟩) := by
    simp only [List.map_cons, List.map_nil]
    rw [List.find?_cons_of_neg _ (by simp [ht1]), List.find?_cons_of_pos _ (by simpa using ht2)]
  have hdet : (detectAndParseData [⟨"0.000".data, []⟩, ⟨"5.123".data, []⟩]).1
      = parsePumpData ⟨"5.123".data, []⟩ := by
    rw [detectAndParseData]
    rw [hpass]
    rw [if_pos (by simp [emptyPump, emptyOdo, truthy])]
    simp only [hfind]
  refine ⟨h1v, hdet, ?_⟩
  rw [h1v, h2v]
  simp only [ne_eq, Option.some.injEq]
  norm_num

/-- C8 amended: when after the lexical pass neither gallons nor miles was
populated, pump data is taken from the first result (in input order) whose
parsed gallons value is truthy (non-null **and nonzero**), and odometer data
independently from the first whose parsed miles value is truthy; when no
result qualifies, the lexical-pass data is kept.  These may be different
results or the same one. -/
theorem claim8_fallback_pass (rs : List OcrResult)
    (h1 : (pass1 rs).1.gallons.value = none) (h2 : (pass1 rs).2.miles.value = none) :
    detectAndParseData rs
      = (match (rs.map parsePumpData).find? (fun d => truthy d.gallons.value) with
         | some d => d
         | none => (pass1 rs).1,
         match (rs.map parseOdometerData).find? (fun d => truthy d.miles.value) with
         | some d => d
         | none => (pass1 rs).2) := by
  rw [detectAndParseData]
  rw [if_pos (by rw [h1, h2]; simp [truthy])]

theorem claim8_witness :
    detectAndParseData [⟨"5.123".data, []⟩]
      = (match (([(⟨"5.123".data, []⟩ : OcrResult)]).map parsePumpData).find?
            (fun d => truthy d.gallons.value) with
         | some d => d
         | none => (pass1 [⟨"5.123".data, []⟩]).1,
         match (([(⟨"5.123".data, []⟩ : OcrResult)]).map parseOdometerData).find?
            (fun d => truthy d.miles.value) with
         | some d => d
         | none => (pass1 [⟨"5.123".data, []⟩]).2) :=
  claim8_fallback_pass [⟨"5.123".data, []⟩] (by decide) (by decide)

/-- Claim C2's direct total pattern with "token" read as word-delimited on
both sides: the value of a token of 1–3 integer digits, a decimal point and
exactly 2 fractional digits starting at position `i` (none when the position
sits inside a longer digit run). -/
def tok2DelimAt (t : List Char) (i : ℕ) : Option ℚ :=
  if wordPrev t i then none else (tryTot (t.drop i)).map fun g => parseDec g.1

/-- Claim C2 as stated (with delimited tokens): the first such token whose
value lies in [10, 500] is the total; if no 2-decimal token exists at all,
the standalone-4-digit heuristic runs, skipping the gallons token. -/
def totalClaim (gds : Option (List Char)) (t : List Char) : Option ℚ :=
  match (upto 0 (t.length + 1)).filterMap (tok2DelimAt t) with
  | [] => (heurTotal gds (runToks 4 4 alwaysTrue t)).map (·.1)
  | v :: vs => (v :: vs).findSome? fun v => if 10 ≤ v ∧ v ≤ 500 then some v else none

/-- C2 counterexample: on the text `"1234.56"` there is **no** delimited
1–3-integer-digit 2-decimal token, and the claim's reading yields no total
(the only 4-digit token `"1234"` was consumed by the gallons heuristic); but
the code's regexp has no left boundary, matches `"234.56"` starting inside
the digit run, and extracts total 234.56. -/
theorem claim2_counterexample :
    (upto 0 (("1234.56".data).length + 1)).filterMap (tok2DelimAt "1234.56".data) = []
    ∧ totalClaim (gDigitsOf (cleanPump "1234.56".data)) (cleanPump "1234.56".data) = none
    ∧ (parsePumpData ⟨"1234.56".data, []⟩).total.value = some (23456 / 100) := by
  have hcl : cleanPump "1234.56".data = "1234.56".data := by decide
  have hdelim : (upto 0 (("1234.56".data).length + 1)).filterMap (tok2DelimAt "1234.56".data)
      = [] := by decide
  have hgd : gDirectOf "1234.56".data = none := by decide
  have hscan45 : runScan 5 4 alwaysTrue "1234.56".data = ["1234".data] := by decide
  have hins : insertDec "1234".data 1 = 1234 / 1000 := by
    rw [insertDec_decomp "1234".data 1 1 234 3 (by decide) (by decide) (by decide)]
    norm_num
  have hc1 : 1 ≤ (1234 / 1000 : ℚ) ∧ (1234 / 1000 : ℚ) ≤ 25 ∧ ("1234".data).length = 1 + 3 :=
    ⟨by norm_num, by norm_num, by decide⟩
  have hg : heurGallons ["1234".data] = some (1234 / 1000, "1234".data) := by
    rw [heurGallons, List.findSome?_cons, List.findSome?_cons, hins, if_pos hc1]
  have hgdig : gDigitsOf "1234.56".data = some "1234".data := by
    simp [gDigitsOf, gHeurOf, hgd, hscan45, hg]
  have hht : heurTotal (some "1234".data) ["1234".data] = none := by decide
  have h44 : runToks 4 4 alwaysTrue "1234.56".data = ["1234".data] := by decide
  have htc : totalClaim (some "1234".data) "1234.56".data = none := by
    rw [totalClaim, hdelim, h44, hht]
    rfl
  have htm : tMatchesOf "1234.56".data = ["234.56".data] := by decide
  have hp234 : parseDec "234.56".data = 23456 / 100 := by
    rw [parseDec_decomp "234.56".data "234".data "56".data 234 56 2 (by decide) (by decide)
      (by decide) (by decide) (by decide)]
    norm_num
  have hth : tHeurOf "1234.56".data = none := by
    simp [tHeurOf, htm]
  have hcond : 10 ≤ (23456 / 100 : ℚ) ∧ (23456 / 100 : ℚ) ≤ 500 := by norm_num
  have htd : tDirectOf "1234.56".data = some ("234.56".data, 23456 / 100) := by
    simp only [tDirectOf, hth, htm, List.findSome?_cons, hp234, if_pos hcond]
  have htv : totalValOf "1234.56".data = some (23456 / 100) := by
    simp [totalValOf, hth, htd]
  refine ⟨hdelim, ?_, ?_⟩
  · rw [hcl, hgdig]
    exact htc
  · simp only [parsePumpData_fields]
    rw [hcl]
    exact htv

/-- Projecting the value out of the direct-total selection loop. -/
theorem findSome?_pair_proj (L : List (List Char)) :
    (match L.findSome? (fun m =>
        if 10 ≤ parseDec m ∧ parseDec m ≤ 500 then some (m, parseDec m) else none) with
     | some (_, v) => some v
     | none => none)
    = L.findSome? fun m =>
        if 10 ≤ parseDec m ∧ parseDec m ≤ 500 then some (parseDec m) else none := by
  induction L with
  | nil => rfl
  | cons a l ih =>
    rw [List.findSome?_cons, List.findSome?_cons]
    by_cases hc : 10 ≤ parseDec a ∧ parseDec a ≤ 500
    · simp [if_pos hc]
    · simp only [if_neg hc]
      exact ih

/-- C2 amended: the direct total scan uses the code's regexp semantics — the
integer digits need **not** be standalone to the left (a match may start
inside a longer digit run), non-overlapping left-to-right; total is the first
match in [10, 500]; only when that scan finds no 2-decimal match at all does
the heuristic over standalone 4-digit tokens run (skipping the gallons
token); consequently a total value is always in [10, 500]. -/
theorem claim2_total_extraction (ocr : OcrResult) :
    (∀ v, (parsePumpData ocr).total.value = some v → 10 ≤ v ∧ v ≤ 500)
    ∧ (tMatchesOf (cleanPump ocr.text) ≠ [] →
        (parsePumpData ocr).total.value
          = (tMatchesOf (cleanPump ocr.text)).findSome? fun m =>
              if 10 ≤ parseDec m ∧ parseDec m ≤ 500 then some (parseDec m) else none)
    ∧ (tMatchesOf (cleanPump ocr.text) = [] →
        (parsePumpData ocr).total.value
          = (heurTotal (gDigitsOf (cleanPump ocr.text))
              (runToks 4 4 alwaysTrue (cleanPump ocr.text))).map (·.1)) := by
  simp only [parsePumpData_fields]
  generalize cleanPump ocr.text = t
  refine ⟨fun v h => totalValOf_range h, ?_, ?_⟩
  · intro hne
    have hth : tHeurOf t = none := by
      rw [tHeurOf, if_neg]
      simp [List.isEmpty_iff, hne]
    calc totalValOf t
        = (match tDirectOf t with
            | some (_, v) => some v
            | none => none) := by
          rw [totalValOf, hth]
          cases tDirectOf t with
          | some r => obtain ⟨m, v⟩ := r; rfl
          | none => rfl
      _ = _ := by
          rw [tDirectOf, hth]
          exact findSome?_pair_proj (tMatchesOf t)
  · intro he
    have hrw : runScan 4 4 alwaysTrue t = runToks 4 4 alwaysTrue t :=
      runScan_eq_runToks 4 4 alwaysTrue (by omega) (by omega) t
    have hth : tHeurOf t = heurTotal (gDigitsOf t) (runToks 4 4 alwaysTrue t) := by
      rw [tHeurOf, if_pos (by simp [he]), hrw]
    rw [totalValOf, hth]
    cases hh : heurTotal (gDigitsOf t) (runToks 4 4 alwaysTrue t) with
    | some r =>
      obtain ⟨v, ds⟩ := r
      rfl
    | none =>
      have htd : tDirectOf t = none := by
        rw [tDirectOf, tHeurOf, if_pos (by simp [he]), hrw, hh, he]
        rfl
      rw [htd]
      rfl

theorem claim2_witness :
    tMatchesOf (cleanPump "SALE $35.51".data) ≠ []
    ∧ (parsePumpData ⟨"SALE $35.51".data, []⟩).total.value
        = (tMatchesOf (cleanPump "SALE $35.51".data)).findSome? fun m =>
            if 10 ≤ parseDec m ∧ parseDec m ≤ 500 then some (parseDec m) else none :=
  ⟨by decide, (claim2_total_extraction ⟨"SALE $35.51".data, []⟩).2.1 (by decide)⟩

/-- Shared evaluation of the two spec §8 scenarios: the artifact cleanup
collapses scenario 2's corrupted `"9.8 | 1"` onto scenario 1's text, and the
pipeline stages produce gallons 9.811, total 35.51, price 35.51/9.811. -/
theorem scenario_eval :
    cleanPump scenario2.text = scenario1.text
    ∧ cleanPump scenario1.text = scenario1.text
    ∧ gallonsValOf scenario1.text = some (9811 / 1000)
    ∧ totalValOf scenario1.text = some (3551 / 100)
    ∧ priceValOf scenario1.text = some (35510 / 9811) := by
  have hgd : gDirectOf scenario1.text = some "9.811".data := by decide
  have hp981 : parseDec "9.811".data = 9811 / 1000 := by
    rw [parseDec_decomp "9.811".data "9".data "811".data 9 811 3 (by decide) (by decide)
      (by decide) (by decide) (by decide)]
    norm_num
  have hgv : gallonsValOf scenario1.text = some (9811 / 1000) := by
    simp [gallonsValOf, gHeurOf, hgd, hp981]
  have htm : tMatchesOf scenario1.text = ["35.51".data] := by decide
  have hp35 : parseDec "35.51".data = 3551 / 100 := by
    rw [parseDec_decomp "35.51".data "35".data "51".data 35 51 2 (by decide) (by decide)
      (by decide) (by decide) (by decide)]
    norm_num
  have hth : tHeurOf scenario1.text = none := by
    simp [tHeurOf, htm]
  have hcond : 10 ≤ (3551 / 100 : ℚ) ∧ (3551 / 100 : ℚ) ≤ 500 := by norm_num
  have htd : tDirectOf scenario1.text = some ("35.51".data, 3551 / 100) := by
    simp only [tDirectOf, hth, htm, List.findSome?_cons, hp35, if_pos hcond]
  have htv : totalValOf scenario1.text = some (3551 / 100) := by
    simp [totalValOf, hth, htd]
  have htnz : (3551 / 100 : ℚ) ≠ 0 := by norm_num
  have hgnz : (9811 / 1000 : ℚ) ≠ 0 := by norm_num
  have htr : truthy (some (3551 / 100 : ℚ)) = true := by simp [truthy, htnz]
  have hgr : truthy (some (9811 / 1000 : ℚ)) = true := by simp [truthy, hgnz]
  have hpv : priceValOf scenario1.text = some (35510 / 9811) := by
    simp only [priceValOf, htv, hgv, htr, hgr, Bool.and_self, if_true]
    exact congrArg some (by norm_num)
  exact ⟨by decide, by decide, hgv, htv, hpv⟩

/-- C5 counterexample: on the corrupted scenario-2 input the derived price is
35510/9811 = 35.51/9.811 ≈ 3.619, which differs from the claim's numeral
3.599 by more than 0.02 — so `price.value ≈ 3.599` is false even at 2-decimal
precision. -/
theorem claim5_counterexample :
    (parsePumpData scenario2).pricePerGallon.value = some (35510 / 9811)
    ∧ (1 / 50 : ℚ) ≤ 35510 / 9811 - 3599 / 1000 := by
  obtain ⟨hc2, hc1, hgv, htv, hpv⟩ := scenario_eval
  constructor
  · simp only [parsePumpData_fields, hc2]
    exact hpv
  · norm_num

/-- C5 amended: the artifact cleanup collapses the bar so that scenario 2
parses identically to the non-corrupted scenario 1, with gallons 9.811, total
35.51 and price 35.51/9.811 (≈ 3.619, not 3.599). -/
theorem claim5_artifact_cleanup :
    parsePumpData scenario2 = parsePumpData scenario1
    ∧ (parsePumpData scenario2).gallons.value = some (9811 / 1000)
    ∧ (parsePumpData scenario2).total.value = some (3551 / 100)
    ∧ (parsePumpData scenario2).pricePerGallon.value
        = some ((3551 / 100) / (9811 / 1000)) := by
  obtain ⟨hc2, hc1, hgv, htv, hpv⟩ := scenario_eval
  have hcc : cleanPump scenario2.text = cleanPump scenario1.text := by rw [hc2, hc1]
  have heq : parsePumpData scenario2 = parsePumpData scenario1 :=
    parsePumpData_congr hcc rfl
  refine ⟨heq, ?_, ?_, ?_⟩ <;> simp only [parsePumpData_fields, hc2]
  · exact hgv
  · exact htv
  · rw [hpv]
    exact congrArg some (by norm_num)

end FuellyOcr
